import Mathlib

/-!
# plugdata: the message dispatcher (Source/Pd/MessageListener.h)

A shallow embedding of `pd::MessageDispatcher` and of the listeners it serves.

Modelling conventions
* Pointers (`void*`, `t_symbol*`, `MessageListener*`) are natural numbers, the
  pointer taken as an unsigned pointer-sized integer; `0` is the null pointer.
  A listener object is identified by its address, and an address is not reused
  after the object is destroyed.
* `int` values that the code never overflows (`argc`, `size`) are integers.
* The callbacks issued by `dequeueMessages` are collected in a list, in the
  order in which they are made. Callbacks are assumed not to call back into
  the dispatcher.
* The model is sequential: one call runs to completion before the next starts.
-/

namespace pd

/-! ## Atoms and records -/

/-- A Pd atom (`t_atom`): a small tagged union. The float payload is kept as
its bit pattern. -/
inductive t_atom where
  | A_FLOAT (bits : Nat)
  | A_SYMBOL (sym : Nat)
  | A_POINTER (ptr : Nat)
  deriving DecidableEq

/-- `MessageDispatcher::Message`: target, symbol, an array of eight atom slots
and the number of slots in use. `data` lists the slots that were written, in
order; the remaining slots of the C++ array are indeterminate. -/
structure Message where
  target : Nat
  symbol : Nat
  data : List t_atom
  size : Int
  deriving DecidableEq

/-- `Message(void* ptr, t_symbol* sym, int argc, t_atom* argv)`:
`size = std::min(argc, 8)` and `std::copy(argv, argv + size, data.data())`.
`argv` is the atom array the caller passes, of length at least `argc`. For a
negative `argc` the copy range is empty here (in C++ it is not a valid range). -/
def Message.ctor (ptr sym : Nat) (argc : Int) (argv : List t_atom) : Message :=
  let size : Int := min argc 8
  { target := ptr, symbol := sym, data := argv.take size.toNat, size := size }

/-! ## The bounded channel -/

/-- `stackSize`, the capacity of each buffer of the channel. -/
def stackSize : Nat := 65536

/-- Modelled from the spec: `Utility/ThreadSafeStack.h` is not among the
sources. The bounded channel has two buffers, active and standby, each holding
up to `capacity` records; producers write only into the active buffer and the
consumer drains the standby buffer. Both buffers list their records oldest
first. -/
structure ThreadSafeStack where
  active : List Message
  standby : List Message
  deriving DecidableEq

/-- Modelled from the spec: `push` writes one record into the active buffer and
returns `true`; when the buffer is at capacity it returns `false` and has no
effect. -/
def ThreadSafeStack.push (capacity : Nat) (s : ThreadSafeStack) (m : Message) :
    ThreadSafeStack × Bool :=
  if s.active.length < capacity then
    ({ s with active := s.active ++ [m] }, true)
  else (s, false)

/-- Modelled from the spec: `swapBuffers` exchanges the roles of the active and
the standby buffer. -/
def ThreadSafeStack.swapBuffers (s : ThreadSafeStack) : ThreadSafeStack :=
  { active := s.standby, standby := s.active }

/-- Modelled from the spec: `pop` removes one record from the standby buffer,
the one enqueued earliest, and fails when that buffer is empty. -/
def ThreadSafeStack.pop (s : ThreadSafeStack) : Option (Message × ThreadSafeStack) :=
  match s.standby with
  | [] => none
  | m :: rest => some (m, { s with standby := rest })

/-- The records that `while (messageStack.pop(message))` pops, in pop order,
found by popping until `pop` fails; `fuel` bounds the number of iterations. -/
def ThreadSafeStack.popLoop : Nat → ThreadSafeStack → List Message × ThreadSafeStack
  | 0, s => ([], s)
  | fuel + 1, s =>
    match s.pop with
    | none => ([], s)
    | some (m, s1) => ((popLoop fuel s1).1.cons m, (popLoop fuel s1).2)

/-- `while (messageStack.pop(message)) { }` run to completion: the standby
buffer holds finitely many records, so its length is enough fuel. -/
def ThreadSafeStack.popAll (s : ThreadSafeStack) : List Message × ThreadSafeStack :=
  s.popLoop s.standby.length

/-! ## Weak references and the listener registry -/

/-- `juce::WeakReference<MessageListener>::wasObjectDeleted()`: the reference
was made from a non-null listener and that listener has been destroyed since.
`deleted` lists the listeners destroyed so far. -/
def wasObjectDeleted (deleted : List Nat) (ref : Nat) : Bool :=
  ref != 0 && deleted.contains ref

/-- `juce::WeakReference<MessageListener>::get()`: the listener, or null when
the reference was made from null or the listener has been destroyed. -/
def weakGet (deleted : List Nat) (ref : Nat) : Nat :=
  if ref != 0 && !deleted.contains ref then ref else 0

/-- `std::set<WeakReference>::insert`: the set is a list without repetition in
ascending order of the listener address the reference was made from. -/
def setInsert (x : Nat) : List Nat → List Nat
  | [] => [x]
  | y :: ys =>
    if x < y then x :: y :: ys
    else if x = y then y :: ys
    else y :: setInsert x ys

/-- `UnorderedMap<void*, std::set<WeakReference<MessageListener>>>`: an
association list from target to listener set, each key at most once. -/
abbrev Registry := List (Nat × List Nat)

/-- `messageListeners.find(object)`: the listener set of `object`, if any. -/
def Registry.find : Registry → Nat → Option (List Nat)
  | [], _ => none
  | (k, s) :: rest, object => if k = object then some s else Registry.find rest object

/-- `messageListeners[object].insert(ref)`: `operator[]` creates an empty set
for a key that is absent. -/
def Registry.insertListener (object ref : Nat) : Registry → Registry
  | [] => [(object, setInsert ref [])]
  | (k, s) :: rest =>
    if k = object then (k, setInsert ref s) :: rest
    else (k, s) :: Registry.insertListener object ref rest

/-- `messageListeners[target].erase(iterator)` of the pruning pass, where the
iterator points at `ref`. The entry stays even when its set becomes empty.
Erasing through an iterator whose element is already gone is undefined in
C++; here it has no effect. -/
def Registry.eraseIterator (target ref : Nat) : Registry → Registry
  | [] => [(target, [])]
  | (k, s) :: rest =>
    if k = target then (k, s.erase ref) :: rest
    else (k, s) :: Registry.eraseIterator target ref rest

/-- The body of `removeMessageListener` on the registry. -/
def Registry.removeListener (object ref : Nat) : Registry → Registry
  | [] => []
  | (k, s) :: rest =>
    if k = object then
      if (s.erase ref).isEmpty then rest else (k, s.erase ref) :: rest
    else (k, s) :: Registry.removeListener object ref rest

/-! ## The dispatcher -/

/-- The members of `MessageDispatcher`. `usedHashes` and `nullListeners` are
the scratch containers of `dequeueMessages`; an iterator into a listener set is
stood for by the reference it points at. -/
structure MessageDispatcher where
  nullListeners : List (Nat × Nat)
  usedHashes : List Nat
  messageStack : ThreadSafeStack
  backupQueue : List Message
  messageListeners : Registry
  block : Bool
  deriving DecidableEq

/-- `MessageDispatcher()`: empty containers, `block = true`. -/
def MessageDispatcher.init : MessageDispatcher :=
  { nullListeners := [], usedHashes := [], messageStack := ⟨[], []⟩,
    backupQueue := [], messageListeners := [], block := true }

/-- `enqueueMessage`: nothing when blocked, otherwise one `push`, whose result
is not looked at. -/
def MessageDispatcher.enqueueMessage (d : MessageDispatcher) (target symbol : Nat)
    (argc : Int) (argv : List t_atom) : MessageDispatcher :=
  if d.block then d
  else { d with messageStack := (d.messageStack.push stackSize (Message.ctor target symbol argc argv)).1 }

/-- `setBlockMessages`: sets the flag and, when blocking, pops the standby
buffer empty, swaps, and pops again. -/
def MessageDispatcher.setBlockMessages (d : MessageDispatcher) (blockMessages : Bool) :
    MessageDispatcher :=
  if blockMessages then
    { d with block := blockMessages,
             messageStack := (d.messageStack.popAll.2.swapBuffers).popAll.2 }
  else { d with block := blockMessages }

/-- `addMessageListener`. -/
def MessageDispatcher.addMessageListener (d : MessageDispatcher) (object messageListener : Nat) :
    MessageDispatcher :=
  { d with messageListeners := d.messageListeners.insertListener object messageListener }

/-- `removeMessageListener`. -/
def MessageDispatcher.removeMessageListener (d : MessageDispatcher)
    (object messageListener : Nat) : MessageDispatcher :=
  { d with messageListeners := d.messageListeners.removeListener object messageListener }

/-- One `receiveMessage(symbol, atoms, numAtoms)` call on `listener`.
`record` is the popped record the call was made for. -/
structure Call where
  listener : Nat
  symbol : Nat
  atoms : List t_atom
  numAtoms : Int
  record : Message
  deriving DecidableEq

/-- The symbol handed to the listener: `message.symbol ? message.symbol : gensym("")`,
where `emptySym` is the address `gensym("")` returns in the active Pd instance. -/
def callSymbol (emptySym : Nat) (message : Message) : Nat :=
  if message.symbol != 0 then message.symbol else emptySym

/-- The call made for `message` on a live listener: the atoms are the first
`message.size` slots of the record. -/
def callFor (emptySym : Nat) (message : Message) (listener : Nat) : Call :=
  { listener := listener, symbol := callSymbol emptySym message,
    atoms := message.data.take message.size.toNat, numAtoms := message.size,
    record := message }

/-- The inner loop of `dequeueMessages` over the listener set of the target of
`message`: the calls made, and the entries added to `nullListeners`. -/
def deliver (deleted : List Nat) (emptySym : Nat) (message : Message) :
    List Nat → List Call × List (Nat × Nat)
  | [] => ([], [])
  | it :: rest =>
    if wasObjectDeleted deleted it then deliver deleted emptySym message rest
    else if weakGet deleted it != 0 then
      ((deliver deleted emptySym message rest).1.cons (callFor emptySym message (weakGet deleted it)),
       (deliver deleted emptySym message rest).2)
    else
      ((deliver deleted emptySym message rest).1,
       (deliver deleted emptySym message rest).2.cons (message.target, it))

/-- What the outer loop of `dequeueMessages` has built up so far. -/
structure LoopState where
  usedHashes : List Nat
  nullListeners : List (Nat × Nat)
  calls : List Call
  deriving DecidableEq

/-- The hash of a record: `target ^ symbol` on pointer-sized integers. The
code casts both pointers to `intptr_t`; exclusive or acts bit by bit, so two
hashes are equal as signed values exactly when they are equal as unsigned
ones. -/
def messageHash (message : Message) : Nat :=
  message.target ^^^ message.symbol

/-- One iteration of the outer loop of `dequeueMessages`, for a popped record. -/
def processMessage (deleted : List Nat) (emptySym : Nat) (reg : Registry)
    (st : LoopState) (message : Message) : LoopState :=
  if messageHash message ∈ st.usedHashes then st
  else
    match reg.find message.target with
    | none => { st with usedHashes := messageHash message :: st.usedHashes }
    | some listeners =>
      { usedHashes := messageHash message :: st.usedHashes,
        nullListeners := st.nullListeners ++ (deliver deleted emptySym message listeners).2,
        calls := st.calls ++ (deliver deleted emptySym message listeners).1 }

/-- The pruning pass: `nullListeners` is walked from its last entry to its
first, each entry erased from the set of its target. -/
def pruneNullListeners (nullListeners : List (Nat × Nat)) (reg : Registry) : Registry :=
  nullListeners.reverse.foldl (fun r p => Registry.eraseIterator p.1 p.2 r) reg

/-- `dequeueMessages`: the callbacks made, in order, and the dispatcher
afterwards. -/
def MessageDispatcher.dequeueMessages (deleted : List Nat) (emptySym : Nat)
    (d : MessageDispatcher) : List Call × MessageDispatcher :=
  let popped := d.messageStack.swapBuffers.popAll
  let st := popped.1.foldl (processMessage deleted emptySym d.messageListeners) ⟨[], [], []⟩
  (st.calls,
   { nullListeners := st.nullListeners, usedHashes := st.usedHashes,
     messageStack := popped.2, backupQueue := d.backupQueue,
     messageListeners := pruneNullListeners st.nullListeners d.messageListeners,
     block := d.block })

/-- Enqueue a sequence of records, one `enqueueMessage` call each, in order. -/
def MessageDispatcher.enqueueAll (d : MessageDispatcher)
    (recs : List (Nat × Nat × Int × List t_atom)) : MessageDispatcher :=
  recs.foldl (fun d r => d.enqueueMessage r.1 r.2.1 r.2.2.1 r.2.2.2) d

/-! ## Vocabulary of the properties -/

/-- The records of a batch that get past the hash test of `dequeueMessages`
when `used` holds the hashes seen so far: a record is kept when no earlier
record of the batch, and no member of `used`, has its hash. -/
def survivorsFrom : List Nat → List Message → List Message
  | _, [] => []
  | used, m :: ms =>
    if messageHash m ∈ used then survivorsFrom used ms
    else m :: survivorsFrom (messageHash m :: used) ms

/-- The records of a batch that survive deduplication in one
`dequeueMessages` call, which starts from an empty `usedHashes`. -/
def survivors (batch : List Message) : List Message :=
  survivorsFrom [] batch

/-- A listener that exists: not null and not destroyed. -/
def isLive (deleted : List Nat) (l : Nat) : Bool :=
  l != 0 && !deleted.contains l

/-- The listener set registered for `object`, empty when there is no entry. -/
def Registry.listenersOf (r : Registry) (object : Nat) : List Nat :=
  (r.find object).getD []

/-- What the containers guarantee: every listener set is in strictly
ascending order, hence without repetition, and no key occurs twice. -/
def Registry.WellFormed (r : Registry) : Prop :=
  (∀ p ∈ r, p.2.Pairwise (· < ·)) ∧ (r.map Prod.fst).Nodup

instance (r : Registry) : Decidable r.WellFormed := by
  unfold Registry.WellFormed; exact inferInstance

/-- The calls a batch of popped records gives rise to under registry `reg`:
for each survivor in pop order, one call per live listener of its target, in
set order. -/
def expectedCalls (deleted : List Nat) (emptySym : Nat) (reg : Registry)
    (batch : List Message) : List Call :=
  (survivors batch).flatMap fun m =>
    ((reg.listenersOf m.target).filter (isLive deleted)).map (callFor emptySym m)

/-! ## The dispatcher in its surroundings -/

/-- The calls made on the dispatcher and the destruction of a listener object. -/
inductive Op where
  | enqueueMessage (target symbol : Nat) (argc : Int) (argv : List t_atom)
  | setBlockMessages (blockMessages : Bool)
  | addMessageListener (object messageListener : Nat)
  | removeMessageListener (object messageListener : Nat)
  | dequeueMessages
  | destroyListener (listener : Nat)
  deriving DecidableEq

/-- The dispatcher, the listeners destroyed so far, and every callback made so
far, oldest first. -/
structure World where
  dispatcher : MessageDispatcher
  deleted : List Nat
  calls : List Call
  deriving DecidableEq

/-- The world right after the dispatcher is constructed. -/
def World.init : World :=
  { dispatcher := MessageDispatcher.init, deleted := [], calls := [] }

/-- One operation on the world. -/
def World.step (emptySym : Nat) (w : World) : Op → World
  | .enqueueMessage target symbol argc argv =>
    { w with dispatcher := w.dispatcher.enqueueMessage target symbol argc argv }
  | .setBlockMessages b => { w with dispatcher := w.dispatcher.setBlockMessages b }
  | .addMessageListener object l =>
    { w with dispatcher := w.dispatcher.addMessageListener object l }
  | .removeMessageListener object l =>
    { w with dispatcher := w.dispatcher.removeMessageListener object l }
  | .dequeueMessages =>
    { w with dispatcher := (w.dispatcher.dequeueMessages w.deleted emptySym).2,
             calls := w.calls ++ (w.dispatcher.dequeueMessages w.deleted emptySym).1 }
  | .destroyListener l => { w with deleted := l :: w.deleted }

/-- A sequence of operations, run from a given world. -/
def World.runFrom (emptySym : Nat) (w : World) (ops : List Op) : World :=
  ops.foldl (World.step emptySym) w

/-- A sequence of operations, run on a newly constructed dispatcher. -/
def World.run (emptySym : Nat) (ops : List Op) : World :=
  World.runFrom emptySym World.init ops

/-- Whether an operation is an `enqueueMessage` call. -/
def Op.isEnqueue : Op → Bool
  | .enqueueMessage _ _ _ _ => true
  | _ => false

/-- The records of a sequence of `enqueueMessage` calls, as constructed. -/
def recordsOf (recs : List (Nat × Nat × Int × List t_atom)) : List Message :=
  recs.map fun r => Message.ctor r.1 r.2.1 r.2.2.1 r.2.2.2

/-- An unblocked dispatcher with registry `reg` whose active buffer holds
`pending`: the state after `setBlockMessages(false)`, the registrations and
the `enqueueMessage` calls that produce them. -/
def unblockedWith (reg : Registry) (pending : List Message) : MessageDispatcher :=
  { nullListeners := [], usedHashes := [], messageStack := ⟨pending, []⟩,
    backupQueue := [], messageListeners := reg, block := false }

/-- A burst of `n` records for target 1 with the pairwise distinct symbols
1, ..., n and no atoms, as arguments of `enqueueMessage`. -/
def burst (n : Nat) : List (Nat × Nat × Int × List t_atom) :=
  (List.range n).map fun i => (1, i + 1, 0, [])

/-- What holds in every world reachable from construction: the standby buffer
and the overflow queue are empty between calls, the registry is well formed,
a blocked dispatcher has an empty active buffer, and every pending record and
every callback made carries at most eight atoms. -/
def World.Inv (w : World) : Prop :=
  w.dispatcher.messageStack.standby = [] ∧
  w.dispatcher.backupQueue = [] ∧
  w.dispatcher.messageListeners.WellFormed ∧
  (w.dispatcher.block = true → w.dispatcher.messageStack.active = []) ∧
  (∀ m ∈ w.dispatcher.messageStack.active, m.size ≤ 8 ∧ m.data.length ≤ 8) ∧
  (∀ c ∈ w.calls, c.numAtoms ≤ 8 ∧ c.atoms.length ≤ 8)

/-- `Message(Message const& other)`: the copy constructor assigns `target`,
`symbol`, `size` and `data` from `other`. -/
def Message.copy (other : Message) : Message :=
  { target := other.target, symbol := other.symbol, data := other.data, size := other.size }

/-- `Message& operator=(Message const& other)`: the four fields are assigned
from `other` unless `this == &other`; `sameObject` tells whether the two are
one object. -/
def Message.assign (self other : Message) (sameObject : Bool) : Message :=
  if !sameObject then
    { target := other.target, symbol := other.symbol, data := other.data, size := other.size }
  else self

/-- The steps of the dispatcher that the lock discipline is about: a
`ScopedLock` on `messageListenerLock` is constructed, it is destroyed, the
registry `messageListeners` is written to, a `receiveMessage` callback runs. -/
inductive LockEvent where
  | acquire
  | release
  | mutate
  | callback
  deriving DecidableEq

/-- `addMessageListener` (lines 96 to 100): the lock is taken for the whole
body, which inserts into the registry. -/
def addMessageListenerEvents : List LockEvent :=
  [LockEvent.acquire, LockEvent.mutate, LockEvent.release]

/-- `removeMessageListener` (lines 102 to 118): the lock is taken for the whole
body; the listener is erased from the set when it is found there, and the key
is erased when the set is empty afterwards. -/
def removeMessageListenerEvents (reg : Registry) (object ref : Nat) : List LockEvent :=
  match reg.find object with
  | none => [LockEvent.acquire, LockEvent.release]
  | some listeners =>
    [LockEvent.acquire] ++ (if ref ∈ listeners then [LockEvent.mutate] else []) ++
      (if (listeners.erase ref).isEmpty then [LockEvent.mutate] else []) ++ [LockEvent.release]

/-- `dequeueMessages` (lines 120 to 160): no `ScopedLock` is constructed
anywhere in the body. The callbacks of the delivery loop come first, then one
write to the registry for each entry of `nullListeners` in the pruning loop. -/
def dequeueMessagesEvents (deleted : List Nat) (emptySym : Nat) (d : MessageDispatcher) :
    List LockEvent :=
  (d.dequeueMessages deleted emptySym).1.map (fun _ => LockEvent.callback) ++
    (d.dequeueMessages deleted emptySym).2.nullListeners.map (fun _ => LockEvent.mutate)

/-- The lock discipline on a sequence of steps, `held` telling whether the lock
is held at its start: every write to the registry happens while the lock is
held, every callback while it is not. -/
def lockDiscipline : Bool → List LockEvent → Bool
  | _, [] => true
  | _, LockEvent.acquire :: rest => lockDiscipline true rest
  | _, LockEvent.release :: rest => lockDiscipline false rest
  | held, LockEvent.mutate :: rest => held && lockDiscipline held rest
  | held, LockEvent.callback :: rest => !held && lockDiscipline held rest

end pd

/-!
# plugdata: other components

`AudioFifo` (Source/Utility/AudioFifo.h), `NVGSurface` (Source/NVGSurface.cpp),
`RadioObject` (Source/Objects/RadioObject.h) and `SplitView`
(Source/SplitView.cpp). Pointers are natural numbers with `0` for null, `int`
values are integers.
-/

namespace plugdata

/-! ## AudioFifo -/

/-- `juce::AbstractFifo`: the size of the managed buffer and the two positions.
The samples between `validStart` and `validEnd`, wrapping at `bufferSize`, are
the ones ready to be read. -/
structure AbstractFifo where
  bufferSize : Int
  validStart : Int
  validEnd : Int
  deriving DecidableEq

/-- The two blocks that `prepareToWrite` and `prepareToRead` hand out. -/
structure FifoBlocks where
  start1 : Int
  size1 : Int
  start2 : Int
  size2 : Int
  deriving DecidableEq

/-- `AbstractFifo::setTotalSize(newSize)`: `reset()` and the new size. -/
def AbstractFifo.setTotalSize (newSize : Int) : AbstractFifo :=
  { bufferSize := newSize, validStart := 0, validEnd := 0 }

/-- `AbstractFifo::getNumReady()`. -/
def AbstractFifo.getNumReady (f : AbstractFifo) : Int :=
  if f.validEnd ≥ f.validStart then f.validEnd - f.validStart
  else f.bufferSize - (f.validStart - f.validEnd)

/-- `AbstractFifo::getFreeSpace()`. -/
def AbstractFifo.getFreeSpace (f : AbstractFifo) : Int :=
  f.bufferSize - f.getNumReady - 1

/-- `AbstractFifo::prepareToWrite(numToWrite, start1, size1, start2, size2)`. -/
def AbstractFifo.prepareToWrite (f : AbstractFifo) (numToWrite : Int) : FifoBlocks :=
  let freeSpace : Int :=
    if f.validEnd ≥ f.validStart then f.bufferSize - (f.validEnd - f.validStart)
    else f.validStart - f.validEnd
  let numToWrite1 : Int := min numToWrite (freeSpace - 1)
  if numToWrite1 ≤ 0 then { start1 := 0, size1 := 0, start2 := 0, size2 := 0 }
  else
    let blockSize1 : Int := min (f.bufferSize - f.validEnd) numToWrite1
    let numToWrite2 : Int := numToWrite1 - blockSize1
    { start1 := f.validEnd, size1 := blockSize1, start2 := 0,
      size2 := if numToWrite2 ≤ 0 then 0 else min numToWrite2 f.validStart }

/-- `AbstractFifo::finishedWrite(numWritten)`. -/
def AbstractFifo.finishedWrite (f : AbstractFifo) (numWritten : Int) : AbstractFifo :=
  let newEnd : Int := f.validEnd + numWritten
  { f with validEnd := if newEnd ≥ f.bufferSize then newEnd - f.bufferSize else newEnd }

/-- `AbstractFifo::prepareToRead(numWanted, start1, size1, start2, size2)`. -/
def AbstractFifo.prepareToRead (f : AbstractFifo) (numWanted : Int) : FifoBlocks :=
  let numReady : Int :=
    if f.validEnd ≥ f.validStart then f.validEnd - f.validStart
    else f.bufferSize - (f.validStart - f.validEnd)
  let numWanted1 : Int := min numWanted numReady
  if numWanted1 ≤ 0 then { start1 := 0, size1 := 0, start2 := 0, size2 := 0 }
  else
    let blockSize1 : Int := min (f.bufferSize - f.validStart) numWanted1
    let numWanted2 : Int := numWanted1 - blockSize1
    { start1 := f.validStart, size1 := blockSize1, start2 := 0,
      size2 := if numWanted2 ≤ 0 then 0 else min numWanted2 f.validEnd }

/-- `AbstractFifo::finishedRead(numRead)`. -/
def AbstractFifo.finishedRead (f : AbstractFifo) (numRead : Int) : AbstractFifo :=
  let newStart : Int := f.validStart + numRead
  { f with validStart := if newStart ≥ f.bufferSize then newStart - f.bufferSize else newStart }

/-- An audio sample. Samples are only copied, never computed with; a sample
stands for the bit pattern of its `float`, `0` being silence. -/
abbrev Sample := Nat

/-- `juce::AudioBuffer<float>`: a number of channels, a number of samples in
each channel, and the sample at each channel and position. -/
structure AudioBuffer where
  numChannels : Nat
  numSamples : Nat
  sample : Nat → Nat → Sample

/-- `AudioBuffer::copyFrom(destChannel, destStartSample, source, sourceChannel,
sourceStartSample, numSamples)`: `numSamples` samples of one channel of
`source` are copied into one channel of the buffer. -/
def AudioBuffer.copyFrom (dest : AudioBuffer) (destChannel destStartSample : Nat)
    (source : AudioBuffer) (sourceChannel sourceStartSample numSamples : Nat) : AudioBuffer :=
  { dest with
    sample := fun ch i =>
      if ch = destChannel ∧ destStartSample ≤ i ∧ i < destStartSample + numSamples then
        source.sample sourceChannel (sourceStartSample + (i - destStartSample))
      else dest.sample ch i }

/-- `AudioFifo`: the fifo positions and the sample storage. -/
structure AudioFifo where
  fifo : AbstractFifo
  audioBuffer : AudioBuffer

/-- `AudioFifo::setSize(channels, maxSize)` followed by `clear()`. -/
def AudioFifo.setSize (channels maxSize : Nat) : AudioFifo :=
  { fifo := AbstractFifo.setTotalSize ((maxSize : Int) + 1),
    audioBuffer := { numChannels := channels, numSamples := maxSize + 1, sample := fun _ _ => 0 } }

/-- `AudioFifo::getNumSamplesAvailable()`. -/
def AudioFifo.getNumSamplesAvailable (a : AudioFifo) : Int :=
  a.fifo.getNumReady

/-- `AudioFifo::getNumSamplesFree()`. -/
def AudioFifo.getNumSamplesFree (a : AudioFifo) : Int :=
  a.fifo.getFreeSpace

/-- `AudioFifo::writeAudio(juce::AudioBuffer<float> const& audioSrc)`. -/
def AudioFifo.writeAudio (a : AudioFifo) (audioSrc : AudioBuffer) : AudioFifo :=
  let blocks := a.fifo.prepareToWrite audioSrc.numSamples
  let channels := min a.audioBuffer.numChannels audioSrc.numChannels
  { fifo := a.fifo.finishedWrite (blocks.size1 + blocks.size2),
    audioBuffer := (List.range channels).foldl
      (fun buffer ch =>
        let buffer1 :=
          if blocks.size1 > 0 then
            buffer.copyFrom ch blocks.start1.toNat audioSrc ch 0 blocks.size1.toNat
          else buffer
        if blocks.size2 > 0 then
          buffer1.copyFrom ch blocks.start2.toNat audioSrc ch blocks.size1.toNat blocks.size2.toNat
        else buffer1)
      a.audioBuffer }

/-- `AudioFifo::readAudio(juce::AudioBuffer<float>& audioDst)`: the fifo
afterwards and the destination as filled. -/
def AudioFifo.readAudio (a : AudioFifo) (audioDst : AudioBuffer) : AudioFifo × AudioBuffer :=
  let blocks := a.fifo.prepareToRead audioDst.numSamples
  let numCh := min a.audioBuffer.numChannels audioDst.numChannels
  ({ a with fifo := a.fifo.finishedRead (blocks.size1 + blocks.size2) },
   (List.range numCh).foldl
      (fun dst ch =>
        let dst1 :=
          if blocks.size1 > 0 then
            dst.copyFrom ch 0 a.audioBuffer ch blocks.start1.toNat blocks.size1.toNat
          else dst
        if blocks.size2 > 0 then
          dst1.copyFrom ch blocks.size1.toNat a.audioBuffer ch blocks.start2.toNat blocks.size2.toNat
        else dst1)
      audioDst)

/-- The states of an `AudioFifo` built with `setSize(channels, maxSize)`: the
managed size is `maxSize + 1`, both positions lie inside the buffer, and the
storage has `channels` channels of `maxSize + 1` samples. -/
def AudioFifo.Valid (a : AudioFifo) (channels maxSize : Nat) : Prop :=
  a.fifo.bufferSize = (maxSize : Int) + 1 ∧
  0 ≤ a.fifo.validStart ∧ a.fifo.validStart < a.fifo.bufferSize ∧
  0 ≤ a.fifo.validEnd ∧ a.fifo.validEnd < a.fifo.bufferSize ∧
  a.audioBuffer.numChannels = channels ∧ a.audioBuffer.numSamples = maxSize + 1

instance (a : AudioFifo) (channels maxSize : Nat) : Decidable (a.Valid channels maxSize) := by
  unfold AudioFifo.Valid; exact inferInstance

/-- An `AudioFifo` for one channel and `maxSize` 3 in a state reached by
writing and reading: one sample, of value 7, is available at position 2, and
the write position 3 is the last one of the storage. -/
def wrappingFifo : AudioFifo :=
  { fifo := { bufferSize := 4, validStart := 2, validEnd := 3 },
    audioBuffer :=
      { numChannels := 1, numSamples := 4, sample := fun _ i => if i = 2 then 7 else 0 } }

/-- A block of one channel with the two samples 11 and 22. -/
def twoSamples : AudioBuffer :=
  { numChannels := 1, numSamples := 2, sample := fun _ i => if i = 0 then 11 else 22 }

/-- A silent block of one channel with `n` samples, to read into. -/
def silentBlock (n : Nat) : AudioBuffer :=
  { numChannels := 1, numSamples := n, sample := fun _ _ => 0 }

/-! ## NVGSurface -/

/-- The static map `surfaces` from nvg context to surface, as a list of
entries with each key at most once. -/
abbrev Surfaces := List (Nat × Nat)

/-- `surfaces.count(nvg)`. -/
def Surfaces.count (surfaces : Surfaces) (nvg : Nat) : Nat :=
  (surfaces.filter fun e => e.1 == nvg).length

/-- `surfaces.erase(nvg)`: the entry of key `nvg`, if any, is removed. -/
def Surfaces.erase (surfaces : Surfaces) (nvg : Nat) : Surfaces :=
  surfaces.filter fun e => !(e.1 == nvg)

/-- `surfaces[nvg] = surface`. -/
def Surfaces.assign (surfaces : Surfaces) (nvg surface : Nat) : Surfaces :=
  (nvg, surface) :: surfaces.filter fun e => !(e.1 == nvg)

/-- `surfaces[nvg]` for a key that is present; null otherwise. -/
def Surfaces.at (surfaces : Surfaces) (nvg : Nat) : Nat :=
  match surfaces.find? fun e => e.1 == nvg with
  | some e => e.2
  | none => 0

/-- The members of `NVGSurface` that `detachContext` deals with: the surface
itself (`this`), its nvg context and its two framebuffers. -/
structure NVGSurface where
  self : Nat
  nvg : Nat
  invalidFBO : Nat
  mainFBO : Nat
  deriving DecidableEq

/-- The end of `NVGSurface::initialise` for a context that was created:
`surfaces[nvg] = this`. -/
def NVGSurface.registerSurface (s : NVGSurface) (surfaces : Surfaces) : Surfaces :=
  if s.nvg = 0 then surfaces else surfaces.assign s.nvg s.self

/-- `NVGSurface::detachContext`: `contextActive` is the result of
`makeContextActive()`. The statements on `nvg` run in the order of the source:
`nvgDeleteContext(nvg); nvg = nullptr; surfaces.erase(nvg);`. -/
def NVGSurface.detachContext (contextActive : Bool) (s : NVGSurface) (surfaces : Surfaces) :
    NVGSurface × Surfaces :=
  if contextActive then
    let s1 : NVGSurface := if s.invalidFBO ≠ 0 then { s with invalidFBO := 0 } else s
    let s2 : NVGSurface := if s1.mainFBO ≠ 0 then { s1 with mainFBO := 0 } else s1
    if s2.nvg ≠ 0 then
      let s3 : NVGSurface := { s2 with nvg := 0 }
      (s3, surfaces.erase s3.nvg)
    else (s2, surfaces)
  else (s, surfaces)

/-- `NVGSurface::getSurfaceForContext(nvg)`. -/
def NVGSurface.getSurfaceForContext (surfaces : Surfaces) (nvg : Nat) : Nat :=
  if surfaces.count nvg = 0 then 0 else surfaces.at nvg

/-- The pixel that `NVGSurface::render` writes to the scan line for the pixel
`argb` read back: `uint8 a = argb >> 24`, `r = argb >> 16`, `g = argb >> 8`,
`b = argb`, and `(a << 24) | (b << 16) | (g << 8) | r` stored as `uint32`. -/
def reorderPixel (argb : Nat) : Nat :=
  let a := (argb >>> 24) % 256
  let r := (argb >>> 16) % 256
  let g := (argb >>> 8) % 256
  let b := argb % 256
  ((a <<< 24) ||| (b <<< 16) ||| (g <<< 8) ||| r) % 2 ^ 32

/-! ## RadioObject -/

/-- The indices i of the accesses `atoms[i]` that
`RadioObject::receiveObjectMessage` makes itself, in order. The `switch` goes
by the hash of the symbol; the cases are told apart here by the symbol. In the
default case the message is handed on to `iemHelper` and the function makes no
access of its own. -/
def receiveObjectMessageAccesses (symbol : String) (atoms : List pd.t_atom) : List Nat :=
  if symbol = "float" ∨ symbol = "list" ∨ symbol = "set" then [0]
  else if symbol = "orientation" then
    if atoms.length ≥ 1 then [0] else []
  else []

/-- `(pos / div) * numItems` converted to `int`, for the pointer coordinate
`pos` and the component length `div`. The `float` expression is taken in exact
arithmetic and truncated toward zero. -/
def radioRawIndex (pos div numItems : Int) : Int :=
  Int.tdiv (pos * numItems) div

/-- `std::clamp<int>(v, lo, hi)`. -/
def clampInt (v lo hi : Int) : Int :=
  if v < lo then lo else if hi < v then hi else v

/-- `RadioObject::toggleObject`: the index passed to `sendFloatValue`, if the
call is made. -/
def toggleObjectIndex (pos div numItems selected : Int) : Option Int :=
  if clampInt (radioRawIndex pos div numItems) 0 (numItems - 1) ≠ selected then
    some (clampInt (radioRawIndex pos div numItems) 0 (numItems - 1))
  else none

/-- `RadioObject::mouseDown`: the index passed to `sendFloatValue`, if the call
is made. -/
def mouseDownIndex (leftButtonDown : Bool) (pos div numItems : Int) : Option Int :=
  if !leftButtonDown then none else some (radioRawIndex pos div numItems)

/-! ## SplitView -/

/-- The loop of `SplitView::getTabComponentSplitIndex` from index `i` on, over
the remaining elements of `splits`. When the loop ends without a match, control
reaches the end of the function, where there is no `return`: no value. -/
def getTabComponentSplitIndexFrom (tabComponent : Nat) : Int → List Nat → Option Int
  | _, [] => none
  | i, split :: rest =>
    if split = tabComponent then some i
    else getTabComponentSplitIndexFrom tabComponent (i + 1) rest

/-- `SplitView::getTabComponentSplitIndex(tabComponent)`. -/
def getTabComponentSplitIndex (splits : List Nat) (tabComponent : Nat) : Option Int :=
  getTabComponentSplitIndexFrom tabComponent 0 splits

end plugdata

namespace pd

/-! ## Lemmas: the channel -/

theorem popLoop_of_le (s : ThreadSafeStack) :
    ∀ (fuel : Nat), s.standby.length ≤ fuel →
      s.popLoop fuel = (s.standby, { s with standby := [] }) := by
  obtain ⟨a, sb⟩ := s
  induction sb with
  | nil =>
    intro fuel _
    cases fuel <;> simp [ThreadSafeStack.popLoop, ThreadSafeStack.pop]
  | cons m rest ih =>
    intro fuel h
    cases fuel with
    | zero => simp at h
    | succ n =>
      have h1 : rest.length ≤ n := by simpa using h
      have := ih n h1
      simp only at this
      simp [ThreadSafeStack.popLoop, ThreadSafeStack.pop, this]

theorem popAll_eq (s : ThreadSafeStack) :
    s.popAll = (s.standby, { s with standby := [] }) :=
  popLoop_of_le s _ (Nat.le_refl _)

theorem enqueueAll_blocked (d : MessageDispatcher) (h : d.block = true)
    (recs : List (Nat × Nat × Int × List t_atom)) : d.enqueueAll recs = d := by
  induction recs with
  | nil => rfl
  | cons r rs ih =>
    simp only [MessageDispatcher.enqueueAll, List.foldl_cons] at ih ⊢
    have : d.enqueueMessage r.1 r.2.1 r.2.2.1 r.2.2.2 = d := by
      simp [MessageDispatcher.enqueueMessage, h]
    rw [this]; exact ih

theorem enqueueAll_unblocked (recs : List (Nat × Nat × Int × List t_atom)) :
    ∀ (d : MessageDispatcher), d.block = false →
      d.enqueueAll recs =
        { d with messageStack :=
            { d.messageStack with active := d.messageStack.active ++
                (recordsOf recs).take (stackSize - d.messageStack.active.length) } } := by
  induction recs with
  | nil => intro d _; simp [MessageDispatcher.enqueueAll, recordsOf]
  | cons r rs ih =>
    intro d hb
    have hstep : d.enqueueAll (r :: rs) =
        (d.enqueueMessage r.1 r.2.1 r.2.2.1 r.2.2.2).enqueueAll rs := rfl
    rw [hstep]
    by_cases hlt : d.messageStack.active.length < stackSize
    · have hb1 : (d.enqueueMessage r.1 r.2.1 r.2.2.1 r.2.2.2).block = false := by
        simp [MessageDispatcher.enqueueMessage, hb]
      rw [ih _ hb1]
      simp only [MessageDispatcher.enqueueMessage, hb, ThreadSafeStack.push, hlt, recordsOf,
        if_true, List.map_cons, List.length_append, List.length_singleton]
      obtain ⟨k, hk⟩ : ∃ k, stackSize - d.messageStack.active.length = k + 1 :=
        ⟨stackSize - d.messageStack.active.length - 1, by omega⟩
      have hk2 : stackSize - (d.messageStack.active.length + 1) = k := by omega
      simp [hk, hk2]
    · have hid : d.enqueueMessage r.1 r.2.1 r.2.2.1 r.2.2.2 = d := by
        obtain ⟨nl, uh, ms, bq, ml, b⟩ := d
        simp only at hb hlt
        simp [MessageDispatcher.enqueueMessage, hb, ThreadSafeStack.push, hlt]
      rw [hid, ih d hb]
      have hz : stackSize - d.messageStack.active.length = 0 := by omega
      simp [hz]

/-! ## Lemmas: the delivery loop -/

theorem deliver_calls (deleted : List Nat) (emptySym : Nat) (m : Message) (ls : List Nat) :
    (deliver deleted emptySym m ls).1 = (ls.filter (isLive deleted)).map (callFor emptySym m) := by
  induction ls with
  | nil => rfl
  | cons it rest ih =>
    by_cases h0 : it = 0
    · subst h0
      simp [deliver, wasObjectDeleted, weakGet, isLive, ih]
    · by_cases hd : it ∈ deleted
      · simp [deliver, wasObjectDeleted, weakGet, isLive, ih, h0, hd]
      · simp [deliver, wasObjectDeleted, weakGet, isLive, ih, h0, hd]

theorem deliver_nulls (deleted : List Nat) (emptySym : Nat) (m : Message) (ls : List Nat) :
    (deliver deleted emptySym m ls).2 =
      (ls.filter (fun it => it == 0)).map (fun it => (m.target, it)) := by
  induction ls with
  | nil => rfl
  | cons it rest ih =>
    by_cases h0 : it = 0
    · subst h0
      simp [deliver, wasObjectDeleted, weakGet, ih]
    · by_cases hd : it ∈ deleted
      · simp [deliver, wasObjectDeleted, weakGet, ih, h0, hd]
      · simp [deliver, wasObjectDeleted, weakGet, ih, h0, hd]

theorem processMessage_eq (deleted : List Nat) (emptySym : Nat) (reg : Registry)
    (st : LoopState) (m : Message) :
    processMessage deleted emptySym reg st m =
      if messageHash m ∈ st.usedHashes then st
      else
        { usedHashes := messageHash m :: st.usedHashes,
          nullListeners := st.nullListeners ++
            (deliver deleted emptySym m (reg.listenersOf m.target)).2,
          calls := st.calls ++ (deliver deleted emptySym m (reg.listenersOf m.target)).1 } := by
  unfold processMessage Registry.listenersOf
  by_cases h : messageHash m ∈ st.usedHashes
  · simp [h]
  · cases hf : reg.find m.target with
    | none => simp [h, deliver]
    | some ls => simp [h]

theorem foldl_processMessage_calls (deleted : List Nat) (emptySym : Nat) (reg : Registry)
    (batch : List Message) :
    ∀ st : LoopState,
      (batch.foldl (processMessage deleted emptySym reg) st).calls =
        st.calls ++ (survivorsFrom st.usedHashes batch).flatMap fun m =>
          ((reg.listenersOf m.target).filter (isLive deleted)).map (callFor emptySym m) := by
  induction batch with
  | nil => intro st; simp [survivorsFrom]
  | cons m ms ih =>
    intro st
    rw [List.foldl_cons, ih, processMessage_eq]
    by_cases h : messageHash m ∈ st.usedHashes
    · simp [h, survivorsFrom]
    · simp [h, survivorsFrom, deliver_calls]

theorem foldl_processMessage_nulls (deleted : List Nat) (emptySym : Nat) (reg : Registry)
    (batch : List Message) :
    ∀ st : LoopState,
      (batch.foldl (processMessage deleted emptySym reg) st).nullListeners =
        st.nullListeners ++ (survivorsFrom st.usedHashes batch).flatMap fun m =>
          ((reg.listenersOf m.target).filter (fun it => it == 0)).map (fun it => (m.target, it)) := by
  induction batch with
  | nil => intro st; simp [survivorsFrom]
  | cons m ms ih =>
    intro st
    rw [List.foldl_cons, ih, processMessage_eq]
    by_cases h : messageHash m ∈ st.usedHashes
    · simp [h, survivorsFrom]
    · simp [h, survivorsFrom, deliver_nulls]

theorem dequeueMessages_calls (deleted : List Nat) (emptySym : Nat) (d : MessageDispatcher) :
    (d.dequeueMessages deleted emptySym).1 =
      expectedCalls deleted emptySym d.messageListeners d.messageStack.active := by
  simp [MessageDispatcher.dequeueMessages, popAll_eq, ThreadSafeStack.swapBuffers,
    foldl_processMessage_calls, expectedCalls, survivors]

theorem dequeueMessages_stack (deleted : List Nat) (emptySym : Nat) (d : MessageDispatcher) :
    (d.dequeueMessages deleted emptySym).2.messageStack = ⟨d.messageStack.standby, []⟩ := by
  simp [MessageDispatcher.dequeueMessages, popAll_eq, ThreadSafeStack.swapBuffers]

theorem dequeueMessages_registry (deleted : List Nat) (emptySym : Nat) (d : MessageDispatcher) :
    (d.dequeueMessages deleted emptySym).2.messageListeners =
      pruneNullListeners
        ((survivors d.messageStack.active).flatMap fun m =>
          ((d.messageListeners.listenersOf m.target).filter (fun it => it == 0)).map
            (fun it => (m.target, it)))
        d.messageListeners := by
  simp [MessageDispatcher.dequeueMessages, popAll_eq, ThreadSafeStack.swapBuffers,
    foldl_processMessage_nulls, survivors]

/-! ## Lemmas: deduplication -/

theorem survivorsFrom_sublist (batch : List Message) :
    ∀ used, (survivorsFrom used batch).Sublist batch := by
  induction batch with
  | nil => intro used; simp [survivorsFrom]
  | cons m ms ih =>
    intro used
    by_cases h : messageHash m ∈ used
    · simpa [survivorsFrom, h] using (ih used).cons m
    · simpa [survivorsFrom, h] using (ih (messageHash m :: used)).cons₂ m

theorem survivorsFrom_not_used (batch : List Message) :
    ∀ used, ∀ m ∈ survivorsFrom used batch, messageHash m ∉ used := by
  induction batch with
  | nil => intro used m hm; simp [survivorsFrom] at hm
  | cons x xs ih =>
    intro used m hm
    by_cases h : messageHash x ∈ used
    · simp only [survivorsFrom, h, if_true] at hm
      exact ih used m hm
    · simp only [survivorsFrom, h, if_false, List.mem_cons] at hm
      rcases hm with rfl | hm
      · exact h
      · have := ih _ m hm
        simp only [List.mem_cons, not_or] at this
        exact this.2

theorem survivorsFrom_pairwise (batch : List Message) :
    ∀ used, (survivorsFrom used batch).Pairwise fun a b => messageHash a ≠ messageHash b := by
  induction batch with
  | nil => intro used; simp [survivorsFrom]
  | cons x xs ih =>
    intro used
    by_cases h : messageHash x ∈ used
    · simpa [survivorsFrom, h] using ih used
    · simp only [survivorsFrom, h, if_false, List.pairwise_cons]
      refine ⟨?_, ih _⟩
      intro b hb heq
      have := survivorsFrom_not_used xs _ b hb
      simp [heq] at this

theorem survivorsFrom_all_used (batch : List Message) (used : List Nat)
    (h : ∀ m ∈ batch, messageHash m ∈ used) : survivorsFrom used batch = [] := by
  induction batch with
  | nil => rfl
  | cons x xs ih =>
    have hx : messageHash x ∈ used := h x (by simp)
    simp only [survivorsFrom, hx, if_true]
    exact ih fun m hm => h m (by simp [hm])

theorem survivorsFrom_distinct (batch : List Message) :
    ∀ used, (∀ m ∈ batch, messageHash m ∉ used) →
      batch.Pairwise (fun a b => messageHash a ≠ messageHash b) →
      survivorsFrom used batch = batch := by
  induction batch with
  | nil => intro used _ _; rfl
  | cons x xs ih =>
    intro used hu hp
    have hx : messageHash x ∉ used := hu x (by simp)
    rw [List.pairwise_cons] at hp
    simp only [survivorsFrom, hx, if_false]
    rw [ih _ _ hp.2]
    intro m hm
    simp only [List.mem_cons, not_or]
    exact ⟨fun e => hp.1 m hm e.symm, hu m (by simp [hm])⟩

/-! ## Lemmas: the registry and the calls one listener receives -/

theorem find_mem (r : Registry) (object : Nat) (ls : List Nat)
    (h : r.find object = some ls) : (object, ls) ∈ r := by
  induction r with
  | nil => simp [Registry.find] at h
  | cons p rest ih =>
    obtain ⟨k, s⟩ := p
    by_cases hk : k = object
    · simp only [Registry.find, hk, if_true, Option.some.injEq] at h
      simp [hk, h]
    · simp only [Registry.find, hk, if_false] at h
      exact List.mem_cons_of_mem _ (ih h)

theorem listenersOf_sorted (r : Registry) (hwf : r.WellFormed) (object : Nat) :
    (r.listenersOf object).Pairwise (· < ·) := by
  unfold Registry.listenersOf
  cases hf : r.find object with
  | none => simp
  | some ls => simpa using hwf.1 _ (find_mem r object ls hf)

theorem listenersOf_nodup (r : Registry) (hwf : r.WellFormed) (object : Nat) :
    (r.listenersOf object).Nodup :=
  (listenersOf_sorted r hwf object).imp fun h => Nat.ne_of_lt h

theorem calls_filter_listener (deleted : List Nat) (emptySym : Nat) (m : Message)
    (ls : List Nat) (hnd : ls.Nodup) (l : Nat) :
    (((ls.filter (isLive deleted)).map (callFor emptySym m)).filter
        fun c => c.listener == l) =
      if l ∈ ls ∧ isLive deleted l = true then [callFor emptySym m l] else [] := by
  induction ls with
  | nil => simp
  | cons x xs ih =>
    rw [List.nodup_cons] at hnd
    have ih1 := ih hnd.2
    by_cases hx : x = l
    · subst hx
      have hnot : ¬ (x ∈ xs ∧ isLive deleted x = true) := fun h => hnd.1 h.1
      rw [if_neg hnot] at ih1
      by_cases hl : isLive deleted x = true
      · simp [List.filter_cons, hl, callFor, ih1]
      · simp [List.filter_cons, hl, ih1]
    · have hiff : (l ∈ x :: xs ∧ isLive deleted l = true) ↔ (l ∈ xs ∧ isLive deleted l = true) := by
        simp [List.mem_cons, Ne.symm hx]
      by_cases hl : isLive deleted x = true
      · simp only [List.filter_cons, hl, if_true, List.map_cons]
        have hne : ((callFor emptySym m x).listener == l) = false := by
          simp [callFor, hx]
        rw [hne]
        simp only [Bool.false_eq_true, if_false]
        rw [ih1]
        simp only [hiff]
      · have hl2 : isLive deleted x = false := by simpa using hl
        simp only [List.filter_cons, hl2, Bool.false_eq_true, if_false]
        rw [ih1]
        simp only [hiff]

theorem expectedCalls_filter_listener (deleted : List Nat) (emptySym : Nat) (reg : Registry)
    (hwf : reg.WellFormed) (batch : List Message) (l : Nat) :
    ((expectedCalls deleted emptySym reg batch).filter fun c => c.listener == l) =
      (survivors batch).flatMap fun m =>
        if l ∈ reg.listenersOf m.target ∧ isLive deleted l = true then [callFor emptySym m l]
        else [] := by
  unfold expectedCalls
  rw [List.filter_flatMap]
  congr 1
  funext m
  exact calls_filter_listener deleted emptySym m _ (listenersOf_nodup reg hwf _) l

theorem flatMap_singleton_of_target (emptySym : Nat) (P : Nat → Prop) [DecidablePred P]
    (target l : Nat) (hP : P target) (ms : List Message) (ht : ∀ m ∈ ms, m.target = target) :
    (ms.flatMap fun m => if P m.target then [callFor emptySym m l] else []) =
      ms.map fun m => callFor emptySym m l := by
  induction ms with
  | nil => rfl
  | cons x xs ih =>
    have hx : x.target = target := ht x (by simp)
    have ih1 := ih fun m hm => ht m (by simp [hm])
    simp only [List.flatMap_cons, List.map_cons, hx, hP, if_true, ih1, List.singleton_append]

theorem survivors_nodup (batch : List Message) : (survivors batch).Nodup :=
  (survivorsFrom_pairwise batch []).imp fun h e => h (by rw [e])

theorem flatMap_pick (emptySym : Nat) (Q : Message → Prop) [DecidablePred Q] (l : Nat)
    (m : Message) (xs : List Message) (hnd : xs.Nodup) (hm : m ∈ xs) :
    (xs.flatMap fun x =>
        (if Q x then [callFor emptySym x l] else []).filter fun c => c.record == m) =
      if Q m then [callFor emptySym m l] else [] := by
  induction xs with
  | nil => simp at hm
  | cons x xs ih =>
    rw [List.nodup_cons] at hnd
    have hrest : ∀ ys : List Message, m ∉ ys →
        (ys.flatMap fun x =>
          (if Q x then [callFor emptySym x l] else []).filter fun c => c.record == m) = [] := by
      intro ys hno
      rw [List.flatMap_eq_nil_iff]
      intro y hy
      have hne : y ≠ m := fun e => hno (e ▸ hy)
      by_cases hq : Q y <;> simp [hq, callFor, hne]
    rw [List.flatMap_cons]
    rcases List.mem_cons.mp hm with rfl | hmem
    · rw [hrest xs hnd.1]
      by_cases hq : Q m <;> simp [hq, callFor]
    · have hne : x ≠ m := fun e => hnd.1 (e ▸ hmem)
      rw [ih hnd.2 hmem]
      by_cases hq : Q x <;> simp [hq, callFor, hne]

theorem calls_for_record_and_listener (deleted : List Nat) (emptySym : Nat)
    (d : MessageDispatcher) (hwf : d.messageListeners.WellFormed) (m : Message)
    (hm : m ∈ survivors d.messageStack.active) (l : Nat) :
    ((d.dequeueMessages deleted emptySym).1.filter
        fun c => c.record == m && c.listener == l) =
      if l ∈ d.messageListeners.listenersOf m.target ∧ isLive deleted l = true then
        [callFor emptySym m l]
      else [] := by
  rw [dequeueMessages_calls, ← List.filter_filter, expectedCalls_filter_listener _ _ _ hwf,
    List.filter_flatMap]
  exact flatMap_pick emptySym
    (fun x => l ∈ d.messageListeners.listenersOf x.target ∧ isLive deleted l = true) l m _
    (survivors_nodup _) hm

/-! ## Coalescing -/

theorem recordsOf_same_hash (target symbol : Nat) (args : List (Int × List t_atom)) :
    ∀ m ∈ recordsOf (args.map fun a => (target, symbol, a.1, a.2)),
      m.target = target ∧ m.symbol = symbol := by
  intro m hm
  simp only [recordsOf, List.map_map, List.mem_map, Function.comp] at hm
  obtain ⟨a, _, rfl⟩ := hm
  simp [Message.ctor]

/-- C1. Coalescing: K >= 1 records with the same target and symbol are enqueued
on an unblocked dispatcher whose active buffer is empty, and one
`dequeueMessages` follows. A live listener registered for the target then
receives exactly one `receiveMessage` call, and it carries the atoms and the
count of the record enqueued first. -/
theorem coalescing_first_record_wins (deleted : List Nat) (emptySym : Nat)
    (d : MessageDispatcher) (target symbol : Nat)
    (first : Int × List t_atom) (more : List (Int × List t_atom)) (l : Nat)
    (hblock : d.block = false) (hactive : d.messageStack.active = [])
    (hwf : d.messageListeners.WellFormed)
    (hreg : l ∈ d.messageListeners.listenersOf target)
    (hlive : isLive deleted l = true) :
    (((d.enqueueAll ((first :: more).map fun a => (target, symbol, a.1, a.2))).dequeueMessages
        deleted emptySym).1.filter fun c => c.listener == l) =
      [{ listener := l,
         symbol := if symbol != 0 then symbol else emptySym,
         atoms := first.2.take (min first.1 8).toNat,
         numAtoms := min first.1 8,
         record := Message.ctor target symbol first.1 first.2 }] := by
  rw [dequeueMessages_calls, enqueueAll_unblocked _ d hblock]
  simp only [hactive, List.nil_append, List.length_nil, Nat.sub_zero]
  have hrec : recordsOf ((first :: more).map fun a => (target, symbol, a.1, a.2)) =
      Message.ctor target symbol first.1 first.2 ::
        recordsOf (more.map fun a => (target, symbol, a.1, a.2)) := by
    simp [recordsOf]
  have htake : ∀ xs : List Message, List.take stackSize
      (Message.ctor target symbol first.1 first.2 :: xs) =
        Message.ctor target symbol first.1 first.2 :: List.take (stackSize - 1) xs := by
    intro xs; simp [stackSize]
  rw [hrec, htake]
  have hsurv : survivors (Message.ctor target symbol first.1 first.2 ::
      List.take (stackSize - 1) (recordsOf (more.map fun a => (target, symbol, a.1, a.2)))) =
        [Message.ctor target symbol first.1 first.2] := by
    have hh : messageHash (Message.ctor target symbol first.1 first.2) ∉ ([] : List Nat) := by simp
    simp only [survivors, survivorsFrom, hh, if_false]
    rw [survivorsFrom_all_used]
    intro m hm
    have hm2 := recordsOf_same_hash target symbol more m (List.mem_of_mem_take hm)
    simp [messageHash, Message.ctor, hm2.1, hm2.2]
  simp only [expectedCalls, hsurv, List.flatMap_cons, List.flatMap_nil, List.append_nil]
  rw [calls_filter_listener _ _ _ _ (listenersOf_nodup _ hwf _)]
  have ht : (Message.ctor target symbol first.1 first.2).target = target := rfl
  rw [ht, if_pos ⟨hreg, hlive⟩]
  simp [callFor, callSymbol, Message.ctor, List.take_take]

/-- Witness for C1: three records for target 1 and symbol 2, listener 5 live. -/
theorem coalescing_first_record_wins_witness :
    ((((unblockedWith [(1, [5])] []).enqueueAll
        (([((2 : Int), [t_atom.A_FLOAT 10, t_atom.A_FLOAT 11]), (1, [t_atom.A_FLOAT 20]),
            (0, [])] : List (Int × List t_atom)).map fun a => (1, 2, a.1, a.2))).dequeueMessages
        [] 77).1.filter fun c => c.listener == 5) =
      [{ listener := 5, symbol := if (2 : Nat) != 0 then 2 else 77,
         atoms := [t_atom.A_FLOAT 10, t_atom.A_FLOAT 11].take (min (2 : Int) 8).toNat,
         numAtoms := min (2 : Int) 8,
         record := Message.ctor 1 2 2 [t_atom.A_FLOAT 10, t_atom.A_FLOAT 11] }] :=
  coalescing_first_record_wins [] 77
    (unblockedWith [(1, [5])] []) 1 2
    (2, [t_atom.A_FLOAT 10, t_atom.A_FLOAT 11]) [(1, [t_atom.A_FLOAT 20]), (0, [])] 5
    rfl rfl (by decide) (by decide) (by decide)

/-! ## Distinct pairs -/

/-- C2. Distinct pairs are all delivered: N records, N at most the channel
capacity, all with the same target and with pairwise distinct (target, symbol)
pairs, are enqueued on an unblocked dispatcher whose active buffer is empty,
and one `dequeueMessages` follows. A live listener registered for the target
then receives exactly N calls, one for each record: none is dropped. -/
theorem distinct_pairs_all_delivered (deleted : List Nat) (emptySym : Nat)
    (d : MessageDispatcher) (target : Nat) (recs : List (Nat × Nat × Int × List t_atom))
    (l : Nat)
    (hblock : d.block = false) (hactive : d.messageStack.active = [])
    (hwf : d.messageListeners.WellFormed)
    (hreg : l ∈ d.messageListeners.listenersOf target)
    (hlive : isLive deleted l = true)
    (hN : recs.length ≤ stackSize)
    (hsame : ∀ r ∈ recs, r.1 = target)
    (hdistinct : recs.Pairwise fun a b => (a.1, a.2.1) ≠ (b.1, b.2.1)) :
    (((d.enqueueAll recs).dequeueMessages deleted emptySym).1.filter
        fun c => c.listener == l) =
      recs.map (fun r => callFor emptySym (Message.ctor r.1 r.2.1 r.2.2.1 r.2.2.2) l) ∧
    (((d.enqueueAll recs).dequeueMessages deleted emptySym).1.filter
        fun c => c.listener == l).length = recs.length := by
  have key : (((d.enqueueAll recs).dequeueMessages deleted emptySym).1.filter
        fun c => c.listener == l) =
      recs.map (fun r => callFor emptySym (Message.ctor r.1 r.2.1 r.2.2.1 r.2.2.2) l) := by
    rw [dequeueMessages_calls, enqueueAll_unblocked _ d hblock]
    simp only [hactive, List.nil_append, List.length_nil, Nat.sub_zero]
    rw [List.take_of_length_le (by simpa [recordsOf] using hN)]
    rw [expectedCalls_filter_listener _ _ _ hwf]
    have hpair : (recordsOf recs).Pairwise fun a b => messageHash a ≠ messageHash b := by
      unfold recordsOf
      rw [List.pairwise_map]
      refine List.Pairwise.imp_of_mem ?_ hdistinct
      intro a b ha hb hne heq
      apply hne
      have h1 := hsame a ha
      have h2 := hsame b hb
      simp only [messageHash, Message.ctor, h1, h2] at heq
      have h3 : a.2.1 = b.2.1 := Nat.xor_right_inj.mp heq
      simp [h1, h2, h3]
    have hsurv : survivors (recordsOf recs) = recordsOf recs :=
      survivorsFrom_distinct _ [] (by simp) hpair
    rw [hsurv]
    rw [flatMap_singleton_of_target emptySym
      (fun t => l ∈ d.messageListeners.listenersOf t ∧ isLive deleted l = true)
      target l ⟨hreg, hlive⟩]
    · simp [recordsOf]
    · intro m hm
      simp only [recordsOf, List.mem_map] at hm
      obtain ⟨r, hr, rfl⟩ := hm
      simpa [Message.ctor] using hsame r hr
  exact ⟨key, by rw [key, List.length_map]⟩

/-- Witness for C2: three records for target 1 with symbols 2, 3 and 4. -/
theorem distinct_pairs_all_delivered_witness :
    (((((unblockedWith [(1, [5])] []).enqueueAll
        [(1, 2, 1, [t_atom.A_FLOAT 10]), (1, 3, 0, []), (1, 4, 0, [])]).dequeueMessages
        [] 77).1.filter fun c => c.listener == 5) =
      ([(1, 2, 1, [t_atom.A_FLOAT 10]), (1, 3, 0, []), (1, 4, 0, [])] :
          List (Nat × Nat × Int × List t_atom)).map
        (fun r => callFor 77 (Message.ctor r.1 r.2.1 r.2.2.1 r.2.2.2) 5)) ∧
    (((((unblockedWith [(1, [5])] []).enqueueAll
        [(1, 2, 1, [t_atom.A_FLOAT 10]), (1, 3, 0, []), (1, 4, 0, [])]).dequeueMessages
        [] 77).1.filter fun c => c.listener == 5).length =
      ([(1, 2, 1, [t_atom.A_FLOAT 10]), (1, 3, 0, []), (1, 4, 0, [])] :
          List (Nat × Nat × Int × List t_atom)).length) :=
  distinct_pairs_all_delivered [] 77
    (unblockedWith [(1, [5])] []) 1
    [(1, 2, 1, [t_atom.A_FLOAT 10]), (1, 3, 0, []), (1, 4, 0, [])] 5
    rfl rfl (by decide) (by decide) (by decide) (by simp [stackSize]) (by decide) (by decide)

/-! ## Delivery -/

/-- C3, as stated, fails for a record whose symbol is null: the record
survives, listener 5 is live and registered for its target, and the one call
made carries the empty symbol of the Pd instance (here at address 77), not
the symbol of the record. -/
theorem delivery_symbol_counterexample :
    Message.ctor 1 0 0 [] ∈ survivors
      ((unblockedWith [(1, [5])] []).enqueueMessage 1 0 0 []).messageStack.active ∧
    (((unblockedWith [(1, [5])] []).enqueueMessage 1 0 0 []).dequeueMessages [] 77).1 =
      [{ listener := 5, symbol := 77, atoms := [], numAtoms := 0,
         record := Message.ctor 1 0 0 [] }] ∧
    ¬ ∃ c ∈ (((unblockedWith [(1, [5])] []).enqueueMessage 1 0 0 []).dequeueMessages [] 77).1,
      c.listener = 5 ∧ c.symbol = (Message.ctor 1 0 0 []).symbol := by
  decide

/-- C3, amended. For every record m that survives deduplication in a
`dequeueMessages` call: a live listener registered for the target of m receives
exactly one call for m, carrying the symbol of m when that is not null and the
empty symbol `gensym("")` when it is null, the first `size` atoms of m in
order, and `numAtoms` equal to the size of m; a listener that is not
registered for the target of m receives no call for m. -/
theorem delivery_per_surviving_record (deleted : List Nat) (emptySym : Nat)
    (d : MessageDispatcher) (hwf : d.messageListeners.WellFormed) (m : Message)
    (hm : m ∈ survivors d.messageStack.active) (l : Nat) :
    (l ∈ d.messageListeners.listenersOf m.target → isLive deleted l = true →
      ((d.dequeueMessages deleted emptySym).1.filter
          fun c => c.record == m && c.listener == l) =
        [{ listener := l,
           symbol := if m.symbol != 0 then m.symbol else emptySym,
           atoms := m.data.take m.size.toNat,
           numAtoms := m.size,
           record := m }]) ∧
    (l ∉ d.messageListeners.listenersOf m.target →
      ((d.dequeueMessages deleted emptySym).1.filter
          fun c => c.record == m && c.listener == l) = []) := by
  rw [calls_for_record_and_listener deleted emptySym d hwf m hm l]
  constructor
  · intro h1 h2
    rw [if_pos ⟨h1, h2⟩]
    simp [callFor, callSymbol]
  · intro h1
    rw [if_neg fun h => h1 h.1]

/-- Witness for C3, amended: two surviving records, for targets 1 and 2;
listener 5 is registered for target 1 only, listener 6 for target 2 only. The
record for target 1 has a null symbol and one atom. -/
theorem delivery_per_surviving_record_witness :
    ((((unblockedWith [(1, [5]), (2, [6])]
          [Message.ctor 1 0 1 [t_atom.A_FLOAT 3], Message.ctor 2 4 0 []]).dequeueMessages
          [] 77).1.filter
        fun c => c.record == Message.ctor 1 0 1 [t_atom.A_FLOAT 3] && c.listener == 5) =
      [{ listener := 5,
         symbol := if (Message.ctor 1 0 1 [t_atom.A_FLOAT 3]).symbol != 0 then
           (Message.ctor 1 0 1 [t_atom.A_FLOAT 3]).symbol else 77,
         atoms := (Message.ctor 1 0 1 [t_atom.A_FLOAT 3]).data.take
           (Message.ctor 1 0 1 [t_atom.A_FLOAT 3]).size.toNat,
         numAtoms := (Message.ctor 1 0 1 [t_atom.A_FLOAT 3]).size,
         record := Message.ctor 1 0 1 [t_atom.A_FLOAT 3] }]) ∧
    ((((unblockedWith [(1, [5]), (2, [6])]
          [Message.ctor 1 0 1 [t_atom.A_FLOAT 3], Message.ctor 2 4 0 []]).dequeueMessages
          [] 77).1.filter
        fun c => c.record == Message.ctor 1 0 1 [t_atom.A_FLOAT 3] && c.listener == 6) = []) :=
  ⟨(delivery_per_surviving_record [] 77
      (unblockedWith [(1, [5]), (2, [6])]
        [Message.ctor 1 0 1 [t_atom.A_FLOAT 3], Message.ctor 2 4 0 []])
      (by decide) (Message.ctor 1 0 1 [t_atom.A_FLOAT 3]) (by decide) 5).1
      (by decide) (by decide),
   (delivery_per_surviving_record [] 77
      (unblockedWith [(1, [5]), (2, [6])]
        [Message.ctor 1 0 1 [t_atom.A_FLOAT 3], Message.ctor 2 4 0 []])
      (by decide) (Message.ctor 1 0 1 [t_atom.A_FLOAT 3]) (by decide) 6).2
      (by decide)⟩

/-! ## Destroyed listeners -/

theorem expectedCalls_listener_live (deleted : List Nat) (emptySym : Nat) (reg : Registry)
    (batch : List Message) :
    ∀ c ∈ expectedCalls deleted emptySym reg batch, isLive deleted c.listener = true := by
  intro c hc
  simp only [expectedCalls, List.mem_flatMap, List.mem_map, List.mem_filter] at hc
  obtain ⟨m, _, x, ⟨_, hx⟩, rfl⟩ := hc
  simpa [callFor] using hx

/-- C5. Listener lifetime safety: a listener that was destroyed without being
removed (its weak reference reports `wasObjectDeleted`) receives no
`receiveMessage` call from `dequeueMessages`, whatever is pending; every call
that is made goes to a listener that is neither null nor destroyed. The
`receiveMessage` call is the only place where `dequeueMessages` goes through a
listener pointer, so the destroyed listener is not dereferenced either. -/
theorem destroyed_listener_not_called (deleted : List Nat) (emptySym : Nat)
    (d : MessageDispatcher) (l : Nat) (hdestroyed : wasObjectDeleted deleted l = true) :
    (∀ c ∈ (d.dequeueMessages deleted emptySym).1, c.listener ≠ l) ∧
    (∀ c ∈ (d.dequeueMessages deleted emptySym).1,
      c.listener ≠ 0 ∧ c.listener ∉ deleted) := by
  rw [dequeueMessages_calls]
  have hlive := expectedCalls_listener_live deleted emptySym d.messageListeners
    d.messageStack.active
  constructor
  · intro c hc e
    have h1 := hlive c hc
    rw [e] at h1
    simp [wasObjectDeleted, isLive] at hdestroyed h1
    exact h1.2 hdestroyed.2
  · intro c hc
    have h1 := hlive c hc
    simpa [isLive] using h1

/-- Witness for C5: listener 5 was registered for target 1 and then destroyed;
a record for target 1 is pending. -/
theorem destroyed_listener_not_called_witness :
    (∀ c ∈ ((unblockedWith [(1, [5, 6])] [Message.ctor 1 2 0 []]).dequeueMessages [5] 77).1, c.listener ≠ 5) ∧
    (∀ c ∈ ((unblockedWith [(1, [5, 6])] [Message.ctor 1 2 0 []]).dequeueMessages [5] 77).1,
      c.listener ≠ 0 ∧ c.listener ∉ [5]) :=
  destroyed_listener_not_called [5] 77
    (unblockedWith [(1, [5, 6])] [Message.ctor 1 2 0 []]) 5 (by decide)

/-! ## Overflow -/

theorem expectedCalls_record_mem (deleted : List Nat) (emptySym : Nat) (reg : Registry)
    (batch : List Message) :
    ∀ c ∈ expectedCalls deleted emptySym reg batch, c.record ∈ batch := by
  intro c hc
  simp only [expectedCalls, List.mem_flatMap, List.mem_map] at hc
  obtain ⟨m, hm, x, _, rfl⟩ := hc
  exact (survivorsFrom_sublist batch []).subset hm

theorem unblockedWith_active (reg : Registry) (pending : List Message) :
    (unblockedWith reg pending).messageStack.active = pending := rfl

theorem enqueueAll_burst (reg : Registry) (n : Nat) (hn : stackSize ≤ n) :
    (unblockedWith reg []).enqueueAll (burst n) =
      unblockedWith reg ((List.range stackSize).map fun i => Message.ctor 1 (i + 1) 0 []) := by
  rw [enqueueAll_unblocked _ _ rfl]
  have h : List.take stackSize (recordsOf (burst n)) =
      (List.range stackSize).map fun i => Message.ctor 1 (i + 1) 0 [] := by
    simp only [recordsOf, burst, List.map_map, ← List.map_take, List.take_range,
      Nat.min_eq_left hn]
    rfl
  simp only [unblockedWith, List.length_nil, Nat.sub_zero, List.nil_append, h]

/-- C4, the code at the failing input. On an unblocked dispatcher with an empty
channel, `stackSize + 1` records with pairwise distinct (target, symbol) pairs
are enqueued in one burst. The last `enqueueMessage` changes nothing: the
dispatcher is as after `stackSize` records, the overflow queue `backupQueue`
is still empty, the next `dequeueMessages` makes no call for the last record,
and after it the channel is empty, so no later call can deliver it. -/
theorem overflow_record_is_lost :
    (unblockedWith [(1, [5])] []).enqueueAll (burst (stackSize + 1)) =
      (unblockedWith [(1, [5])] []).enqueueAll (burst stackSize) ∧
    ((unblockedWith [(1, [5])] []).enqueueAll (burst (stackSize + 1))).backupQueue = [] ∧
    (∀ c ∈ (((unblockedWith [(1, [5])] []).enqueueAll (burst (stackSize + 1))).dequeueMessages
        [] 77).1, c.record ≠ Message.ctor 1 (stackSize + 1) 0 []) ∧
    (((unblockedWith [(1, [5])] []).enqueueAll (burst (stackSize + 1))).dequeueMessages
        [] 77).2.messageStack = ⟨[], []⟩ ∧
    (((unblockedWith [(1, [5])] []).enqueueAll (burst (stackSize + 1))).dequeueMessages
        [] 77).2.backupQueue = [] := by
  rw [enqueueAll_burst _ _ (Nat.le_succ _), enqueueAll_burst _ _ (Nat.le_refl _)]
  refine ⟨rfl, rfl, ?_, ?_, rfl⟩
  · intro c hc e
    rw [dequeueMessages_calls] at hc
    have hmem := expectedCalls_record_mem _ _ _ _ c hc
    rw [e, unblockedWith_active, List.mem_map] at hmem
    obtain ⟨i, hi, heq⟩ := hmem
    rw [List.mem_range] at hi
    have hs : (Message.ctor 1 (i + 1) 0 []).symbol = (Message.ctor 1 (stackSize + 1) 0 []).symbol := by
      rw [heq]
    simp only [Message.ctor] at hs
    omega
  · rw [dequeueMessages_stack]
    rfl

/-! ## Pruning -/

/-- C6, the code at the failing input. Listener 5 is registered for target 1
and destroyed without being removed; a record for target 1 is enqueued and
`dequeueMessages` runs. No call is made, nothing is recorded in
`nullListeners`, and the registry still holds the entry of listener 5 under
target 1. A reference registered as null, in contrast, is recorded and erased. -/
theorem expired_listener_not_pruned :
    (World.run 77 [Op.setBlockMessages false, Op.addMessageListener 1 5, Op.destroyListener 5,
        Op.enqueueMessage 1 2 0 [], Op.dequeueMessages]).dispatcher.messageListeners =
      [(1, [5])] ∧
    (World.run 77 [Op.setBlockMessages false, Op.addMessageListener 1 5, Op.destroyListener 5,
        Op.enqueueMessage 1 2 0 [], Op.dequeueMessages]).dispatcher.nullListeners = [] ∧
    (World.run 77 [Op.setBlockMessages false, Op.addMessageListener 1 5, Op.destroyListener 5,
        Op.enqueueMessage 1 2 0 [], Op.dequeueMessages]).calls = [] ∧
    (World.run 77 [Op.setBlockMessages false, Op.addMessageListener 1 0,
        Op.enqueueMessage 1 2 0 [], Op.dequeueMessages]).dispatcher.messageListeners =
      [(1, [])] := by
  decide

/-! ## Blocking -/

/-- C8. Blocked enqueue is a no-op: with the block flag set, `enqueueMessage`
returns the dispatcher exactly as it was, for every argument: both buffers of
the channel, the overflow queue, the registry, the flag and the scratch
containers are unchanged. -/
theorem blocked_enqueue_is_noop (d : MessageDispatcher) (hblock : d.block = true)
    (target symbol : Nat) (argc : Int) (argv : List t_atom) :
    d.enqueueMessage target symbol argc argv = d := by
  simp [MessageDispatcher.enqueueMessage, hblock]

/-- Witness for C8: a blocked dispatcher with records left in both buffers. -/
theorem blocked_enqueue_is_noop_witness :
    ({ nullListeners := [], usedHashes := [3],
       messageStack := ⟨[Message.ctor 1 2 0 []], [Message.ctor 4 2 0 []]⟩,
       backupQueue := [], messageListeners := [(1, [5])],
       block := true } : MessageDispatcher).enqueueMessage 1 2 3
        [t_atom.A_FLOAT 1, t_atom.A_SYMBOL 9, t_atom.A_POINTER 4] =
      { nullListeners := [], usedHashes := [3],
        messageStack := ⟨[Message.ctor 1 2 0 []], [Message.ctor 4 2 0 []]⟩,
        backupQueue := [], messageListeners := [(1, [5])],
        block := true } :=
  blocked_enqueue_is_noop _ rfl 1 2 3 [t_atom.A_FLOAT 1, t_atom.A_SYMBOL 9, t_atom.A_POINTER 4]

theorem setBlockMessages_true_stack (d : MessageDispatcher) :
    (d.setBlockMessages true).messageStack = ⟨[], []⟩ := by
  simp [MessageDispatcher.setBlockMessages, popAll_eq, ThreadSafeStack.swapBuffers]

theorem enqueueMessage_backupQueue (d : MessageDispatcher) (target symbol : Nat) (argc : Int)
    (argv : List t_atom) : (d.enqueueMessage target symbol argc argv).backupQueue = d.backupQueue := by
  unfold MessageDispatcher.enqueueMessage
  split <;> rfl

theorem enqueueAll_backupQueue (recs : List (Nat × Nat × Int × List t_atom)) :
    ∀ d : MessageDispatcher, (d.enqueueAll recs).backupQueue = d.backupQueue := by
  induction recs with
  | nil => intro d; rfl
  | cons r rs ih =>
    intro d
    have hstep : d.enqueueAll (r :: rs) =
        (d.enqueueMessage r.1 r.2.1 r.2.2.1 r.2.2.2).enqueueAll rs := rfl
    rw [hstep, ih, enqueueMessage_backupQueue]

theorem setBlockMessages_backupQueue (d : MessageDispatcher) (b : Bool) :
    (d.setBlockMessages b).backupQueue = d.backupQueue := by
  unfold MessageDispatcher.setBlockMessages
  split <;> rfl

theorem step_backupQueue (emptySym : Nat) (w : World) (op : Op) :
    (w.step emptySym op).dispatcher.backupQueue = w.dispatcher.backupQueue := by
  cases op with
  | enqueueMessage t sy ac av => exact enqueueMessage_backupQueue _ _ _ _ _
  | setBlockMessages b => exact setBlockMessages_backupQueue _ _
  | addMessageListener o l => rfl
  | removeMessageListener o l => rfl
  | dequeueMessages => rfl
  | destroyListener l => rfl

theorem runFrom_backupQueue (emptySym : Nat) (ops : List Op) :
    ∀ w : World, (w.runFrom emptySym ops).dispatcher.backupQueue = w.dispatcher.backupQueue := by
  induction ops with
  | nil => intro w; rfl
  | cons op rest ih =>
    intro w
    have hstep : w.runFrom emptySym (op :: rest) = (w.step emptySym op).runFrom emptySym rest := rfl
    rw [hstep, ih, step_backupQueue]

theorem dequeueMessages_calls_of_empty (deleted : List Nat) (emptySym : Nat)
    (d : MessageDispatcher) (h : d.messageStack.active = []) :
    (d.dequeueMessages deleted emptySym).1 = [] := by
  rw [dequeueMessages_calls, h]
  rfl

/-- C7. Block and flush: take any state reachable from construction, enqueue
any sequence of records, then call `setBlockMessages(true)`. Both buffers of
the channel are then empty and so is the overflow queue, so no record enqueued
before the block is left anywhere; after `setBlockMessages(false)` a
`dequeueMessages` makes no call at all. -/
theorem block_discards_pending (emptySym : Nat) (ops : List Op)
    (recs : List (Nat × Nat × Int × List t_atom)) (deleted : List Nat) :
    (((World.run emptySym ops).dispatcher.enqueueAll recs).setBlockMessages true).messageStack =
        ⟨[], []⟩ ∧
    (((World.run emptySym ops).dispatcher.enqueueAll recs).setBlockMessages true).backupQueue =
        [] ∧
    (((((World.run emptySym ops).dispatcher.enqueueAll recs).setBlockMessages true).setBlockMessages
        false).dequeueMessages deleted emptySym).1 = [] := by
  refine ⟨setBlockMessages_true_stack _, ?_, ?_⟩
  · rw [setBlockMessages_backupQueue, enqueueAll_backupQueue]
    exact runFrom_backupQueue emptySym ops World.init
  · apply dequeueMessages_calls_of_empty
    have h := setBlockMessages_true_stack ((World.run emptySym ops).dispatcher.enqueueAll recs)
    simp [MessageDispatcher.setBlockMessages] at h ⊢
    rw [h]

/-! ## The initial state -/

theorem step_blocked (emptySym : Nat) (w : World) (op : Op)
    (hop : op ≠ Op.setBlockMessages false)
    (h : w.dispatcher.block = true ∧ w.dispatcher.messageStack = ⟨[], []⟩ ∧ w.calls = []) :
    (w.step emptySym op).dispatcher.block = true ∧
    (w.step emptySym op).dispatcher.messageStack = ⟨[], []⟩ ∧
    (w.step emptySym op).calls = [] := by
  obtain ⟨hb, hs, hc⟩ := h
  cases op with
  | enqueueMessage t sy ac av =>
    simp only [World.step]
    rw [show w.dispatcher.enqueueMessage t sy ac av = w.dispatcher from by
      simp [MessageDispatcher.enqueueMessage, hb]]
    exact ⟨hb, hs, hc⟩
  | setBlockMessages b =>
    cases b with
    | false => exact absurd rfl hop
    | true => exact ⟨rfl, setBlockMessages_true_stack _, hc⟩
  | addMessageListener o l => exact ⟨hb, hs, hc⟩
  | removeMessageListener o l => exact ⟨hb, hs, hc⟩
  | dequeueMessages =>
    refine ⟨hb, ?_, ?_⟩
    · simp only [World.step]
      rw [dequeueMessages_stack, hs]
    · simp only [World.step]
      rw [hc, dequeueMessages_calls_of_empty _ _ _ (by rw [hs])]
      rfl
  | destroyListener l => exact ⟨hb, hs, hc⟩

theorem runFrom_blocked (emptySym : Nat) (ops : List Op) :
    ∀ w : World, (∀ op ∈ ops, op ≠ Op.setBlockMessages false) →
      (w.dispatcher.block = true ∧ w.dispatcher.messageStack = ⟨[], []⟩ ∧ w.calls = []) →
      ((w.runFrom emptySym ops).dispatcher.block = true ∧
       (w.runFrom emptySym ops).dispatcher.messageStack = ⟨[], []⟩ ∧
       (w.runFrom emptySym ops).calls = []) := by
  induction ops with
  | nil => intro w _ h; exact h
  | cons op rest ih =>
    intro w hno h
    have hstep : w.runFrom emptySym (op :: rest) = (w.step emptySym op).runFrom emptySym rest := rfl
    rw [hstep]
    exact ih _ (fun o ho => hno o (by simp [ho]))
      (step_blocked emptySym w op (hno op (by simp)) h)

theorem runFrom_skip_enqueues (emptySym : Nat) (ops rest : List Op) :
    ∀ w : World, (∀ op ∈ ops, op ≠ Op.setBlockMessages false) →
      (w.dispatcher.block = true ∧ w.dispatcher.messageStack = ⟨[], []⟩ ∧ w.calls = []) →
      w.runFrom emptySym (ops ++ rest) =
        w.runFrom emptySym (ops.filter (fun op => !op.isEnqueue) ++ rest) := by
  induction ops with
  | nil => intro w _ _; rfl
  | cons op tl ih =>
    intro w hno h
    have hstep : w.runFrom emptySym (op :: tl ++ rest) =
        (w.step emptySym op).runFrom emptySym (tl ++ rest) := rfl
    have hnext := step_blocked emptySym w op (hno op (by simp)) h
    have htl : ∀ o ∈ tl, o ≠ Op.setBlockMessages false := fun o ho => hno o (by simp [ho])
    rw [hstep, ih _ htl hnext]
    cases op with
    | enqueueMessage t sy ac av =>
      have hid : w.step emptySym (Op.enqueueMessage t sy ac av) = w := by
        simp only [World.step]
        rw [show w.dispatcher.enqueueMessage t sy ac av = w.dispatcher from by
          simp [MessageDispatcher.enqueueMessage, h.1]]
      rw [hid]
      simp [Op.isEnqueue]
    | setBlockMessages b => simp [Op.isEnqueue, World.runFrom]
    | addMessageListener o l => simp [Op.isEnqueue, World.runFrom]
    | removeMessageListener o l => simp [Op.isEnqueue, World.runFrom]
    | dequeueMessages => simp [Op.isEnqueue, World.runFrom]
    | destroyListener l => simp [Op.isEnqueue, World.runFrom]

/-- C9. Initial state is Blocked: a newly constructed dispatcher has the block
flag set and an empty channel and overflow queue. For every sequence of
operations without `setBlockMessages(false)` run on it, the flag is still set,
the channel is still empty and no callback has been made; and whatever
operations follow, the outcome is the one obtained when the `enqueueMessage`
calls made before the first `setBlockMessages(false)` are left out: the
records enqueued before it are never delivered. -/
theorem initially_blocked (emptySym : Nat) (ops rest : List Op)
    (hno : ∀ op ∈ ops, op ≠ Op.setBlockMessages false) :
    MessageDispatcher.init.block = true ∧
    MessageDispatcher.init.messageStack = ⟨[], []⟩ ∧
    MessageDispatcher.init.backupQueue = [] ∧
    (World.run emptySym ops).dispatcher.block = true ∧
    (World.run emptySym ops).dispatcher.messageStack = ⟨[], []⟩ ∧
    (World.run emptySym ops).calls = [] ∧
    World.run emptySym (ops ++ rest) =
      World.run emptySym (ops.filter (fun op => !op.isEnqueue) ++ rest) := by
  have hinit : World.init.dispatcher.block = true ∧
      World.init.dispatcher.messageStack = ⟨[], []⟩ ∧ World.init.calls = [] := ⟨rfl, rfl, rfl⟩
  have h1 := runFrom_blocked emptySym ops World.init hno hinit
  exact ⟨rfl, rfl, rfl, h1.1, h1.2.1, h1.2.2,
    runFrom_skip_enqueues emptySym ops rest World.init hno hinit⟩

/-- Witness for C9: a listener is added and two records are enqueued before
the first `setBlockMessages(false)`; a `dequeueMessages` follows it. -/
theorem initially_blocked_witness :
    MessageDispatcher.init.block = true ∧
    MessageDispatcher.init.messageStack = ⟨[], []⟩ ∧
    MessageDispatcher.init.backupQueue = [] ∧
    (World.run 77 [Op.addMessageListener 1 5, Op.enqueueMessage 1 2 0 [], Op.dequeueMessages,
        Op.enqueueMessage 1 3 0 []]).dispatcher.block = true ∧
    (World.run 77 [Op.addMessageListener 1 5, Op.enqueueMessage 1 2 0 [], Op.dequeueMessages,
        Op.enqueueMessage 1 3 0 []]).dispatcher.messageStack = ⟨[], []⟩ ∧
    (World.run 77 [Op.addMessageListener 1 5, Op.enqueueMessage 1 2 0 [], Op.dequeueMessages,
        Op.enqueueMessage 1 3 0 []]).calls = [] ∧
    World.run 77 ([Op.addMessageListener 1 5, Op.enqueueMessage 1 2 0 [], Op.dequeueMessages,
        Op.enqueueMessage 1 3 0 []] ++ [Op.setBlockMessages false, Op.dequeueMessages]) =
      World.run 77 ([Op.addMessageListener 1 5, Op.enqueueMessage 1 2 0 [], Op.dequeueMessages,
        Op.enqueueMessage 1 3 0 []].filter (fun op => !op.isEnqueue) ++
          [Op.setBlockMessages false, Op.dequeueMessages]) :=
  initially_blocked 77
    [Op.addMessageListener 1 5, Op.enqueueMessage 1 2 0 [], Op.dequeueMessages,
      Op.enqueueMessage 1 3 0 []]
    [Op.setBlockMessages false, Op.dequeueMessages] (by decide)

/-! ## Registration -/

theorem setInsert_idem (x : Nat) (s : List Nat) : setInsert x (setInsert x s) = setInsert x s := by
  induction s with
  | nil => simp [setInsert]
  | cons y ys ih =>
    by_cases h1 : x < y
    · simp [setInsert, h1]
    · by_cases h2 : x = y
      · simp [setInsert, h2]
      · simp [setInsert, h1, h2, ih]

theorem mem_setInsert (x y : Nat) (s : List Nat) : y ∈ setInsert x s ↔ y = x ∨ y ∈ s := by
  induction s with
  | nil => simp [setInsert]
  | cons z zs ih =>
    by_cases h1 : x < z
    · simp [setInsert, h1]
    · by_cases h2 : x = z
      · subst h2
        simp [setInsert]
      · simp only [setInsert, h1, h2, if_false, List.mem_cons, ih]
        tauto

theorem setInsert_sorted (x : Nat) (s : List Nat) (hs : s.Pairwise (· < ·)) :
    (setInsert x s).Pairwise (· < ·) := by
  induction s with
  | nil => simp [setInsert]
  | cons z zs ih =>
    rw [List.pairwise_cons] at hs
    by_cases h1 : x < z
    · simp only [setInsert, h1, if_true, List.pairwise_cons]
      refine ⟨?_, hs.1, hs.2⟩
      intro a ha
      rcases List.mem_cons.mp ha with rfl | ha
      · exact h1
      · exact Nat.lt_trans h1 (hs.1 a ha)
    · by_cases h2 : x = z
      · simp only [setInsert, h1, h2, if_false, if_true, List.pairwise_cons]
        simpa [h2] using hs
      · simp only [setInsert, h1, h2, if_false, List.pairwise_cons]
        refine ⟨?_, ih hs.2⟩
        intro a ha
        rcases (mem_setInsert x a zs).mp ha with rfl | ha
        · omega
        · exact hs.1 a ha

theorem insertListener_idem (object ref : Nat) (r : Registry) :
    Registry.insertListener object ref (Registry.insertListener object ref r) =
      Registry.insertListener object ref r := by
  induction r with
  | nil => simp [Registry.insertListener, setInsert]
  | cons p rest ih =>
    obtain ⟨k, s⟩ := p
    by_cases hk : k = object
    · simp [Registry.insertListener, hk, setInsert_idem]
    · simp [Registry.insertListener, hk, ih]

theorem insertListener_keys (object ref : Nat) (r : Registry) :
    (Registry.insertListener object ref r).map Prod.fst =
      if object ∈ r.map Prod.fst then r.map Prod.fst else r.map Prod.fst ++ [object] := by
  induction r with
  | nil => simp [Registry.insertListener]
  | cons p rest ih =>
    obtain ⟨k, s⟩ := p
    by_cases hk : k = object
    · simp [Registry.insertListener, hk]
    · have hk2 : ¬ object = k := fun e => hk e.symm
      by_cases hmem : object ∈ rest.map Prod.fst
      · simp only [Registry.insertListener, hk, if_false, List.map_cons, ih, hmem, if_true,
          List.mem_cons, or_true]
      · simp only [Registry.insertListener, hk, if_false, List.map_cons, ih, hmem,
          List.mem_cons, hk2, or_self, List.cons_append]

theorem insertListener_wellFormed (object ref : Nat) (r : Registry) (hwf : r.WellFormed) :
    (Registry.insertListener object ref r).WellFormed := by
  constructor
  · have h1 := hwf.1
    clear hwf
    induction r with
    | nil =>
      intro p hp
      simp only [Registry.insertListener, List.mem_singleton] at hp
      subst hp
      simp [setInsert]
    | cons q rest ih =>
      obtain ⟨k, s⟩ := q
      have hrest : ∀ p ∈ rest, p.2.Pairwise (· < ·) := fun p hp => h1 p (by simp [hp])
      have hs : s.Pairwise (· < ·) := h1 (k, s) (by simp)
      intro p hp
      by_cases hk : k = object
      · simp only [Registry.insertListener, hk, if_true, List.mem_cons] at hp
        rcases hp with rfl | hp
        · exact setInsert_sorted ref s hs
        · exact hrest p hp
      · simp only [Registry.insertListener, hk, if_false, List.mem_cons] at hp
        rcases hp with rfl | hp
        · exact hs
        · exact ih hrest p hp
  · rw [insertListener_keys]
    by_cases hmem : object ∈ r.map Prod.fst
    · simpa [hmem] using hwf.2
    · simp only [hmem, if_false]
      rw [List.nodup_append]
      refine ⟨hwf.2, by simp, ?_⟩
      intro a ha hb
      simp only [List.mem_singleton] at hb
      exact hmem (hb ▸ ha)

theorem listenersOf_insertListener (object ref : Nat) (r : Registry) :
    (Registry.insertListener object ref r).listenersOf object =
      setInsert ref (r.listenersOf object) := by
  induction r with
  | nil => simp [Registry.insertListener, Registry.listenersOf, Registry.find]
  | cons p rest ih =>
    obtain ⟨k, s⟩ := p
    by_cases hk : k = object
    · simp [Registry.insertListener, Registry.listenersOf, Registry.find, hk]
    · simpa [Registry.insertListener, Registry.listenersOf, Registry.find, hk] using ih

/-- C10. Idempotent registration: for every registry, target and listener,
calling `addMessageListener(target, listener)` twice gives the same dispatcher
as calling it once. When the listener is live, a following `dequeueMessages`
calls its `receiveMessage` exactly once, not twice, for a surviving record
whose target is that target. -/
theorem add_listener_twice (deleted : List Nat) (emptySym : Nat) (d : MessageDispatcher)
    (target l : Nat) (m : Message) :
    (d.addMessageListener target l).addMessageListener target l =
      d.addMessageListener target l ∧
    (d.messageListeners.WellFormed → isLive deleted l = true →
      m ∈ survivors d.messageStack.active → m.target = target →
      ((((d.addMessageListener target l).addMessageListener target l).dequeueMessages
          deleted emptySym).1.filter fun c => c.record == m && c.listener == l) =
        [callFor emptySym m l]) := by
  have hidem : (d.addMessageListener target l).addMessageListener target l =
      d.addMessageListener target l := by
    simp [MessageDispatcher.addMessageListener, insertListener_idem]
  refine ⟨hidem, ?_⟩
  intro hwf hlive hm ht
  rw [hidem]
  have hwf2 : (d.addMessageListener target l).messageListeners.WellFormed :=
    insertListener_wellFormed target l _ hwf
  rw [calls_for_record_and_listener deleted emptySym _ hwf2 m hm l]
  have hreg : l ∈ (d.addMessageListener target l).messageListeners.listenersOf m.target := by
    rw [ht]
    simp only [MessageDispatcher.addMessageListener]
    rw [listenersOf_insertListener, mem_setInsert]
    exact Or.inl rfl
  rw [if_pos ⟨hreg, hlive⟩]

/-- Witness for C10: listener 5 is added twice for target 1, where listener 6
is registered already; one record for target 1 is pending. -/
theorem add_listener_twice_witness :
    (((unblockedWith [(1, [6])] [Message.ctor 1 2 0 []]).addMessageListener 1 5).addMessageListener
        1 5 =
      (unblockedWith [(1, [6])] [Message.ctor 1 2 0 []]).addMessageListener 1 5) ∧
    ((((((unblockedWith [(1, [6])] [Message.ctor 1 2 0 []]).addMessageListener
          1 5).addMessageListener 1 5).dequeueMessages [] 77).1.filter
          fun c => c.record == Message.ctor 1 2 0 [] && c.listener == 5) =
        [callFor 77 (Message.ctor 1 2 0 []) 5]) :=
  ⟨(add_listener_twice [] 77 (unblockedWith [(1, [6])] [Message.ctor 1 2 0 []]) 1 5
      (Message.ctor 1 2 0 [])).1,
   (add_listener_twice [] 77 (unblockedWith [(1, [6])] [Message.ctor 1 2 0 []]) 1 5
      (Message.ctor 1 2 0 [])).2 (by decide) (by decide) (by decide) rfl⟩

/-! ## Deregistration -/

theorem find_none_of_not_key (r : Registry) (object : Nat)
    (h : object ∉ r.map Prod.fst) : r.find object = none := by
  induction r with
  | nil => rfl
  | cons p rest ih =>
    obtain ⟨k, s⟩ := p
    simp only [List.map_cons, List.mem_cons, not_or] at h
    have hk : ¬ k = object := fun e => h.1 e.symm
    simp only [Registry.find, hk, if_false]
    exact ih h.2

theorem find_removeListener_other (object ref other : Nat) (r : Registry)
    (hne : other ≠ object) :
    (Registry.removeListener object ref r).find other = r.find other := by
  induction r with
  | nil => rfl
  | cons p rest ih =>
    obtain ⟨k, s⟩ := p
    by_cases hk : k = object
    · have hko : ¬ k = other := fun e => hne (e ▸ hk)
      by_cases he : (s.erase ref).isEmpty = true
      · simp [Registry.removeListener, hk, he, Registry.find, hne.symm]
      · simp [Registry.removeListener, hk, he, Registry.find, hne.symm]
    · by_cases hko : k = other
      · subst hko
        simp [Registry.removeListener, hk, Registry.find]
      · simp [Registry.removeListener, hk, Registry.find, hko, ih]

theorem listenersOf_removeListener (object ref : Nat) (r : Registry)
    (hkeys : (r.map Prod.fst).Nodup) :
    (Registry.removeListener object ref r).listenersOf object =
      (r.listenersOf object).erase ref := by
  induction r with
  | nil => simp [Registry.removeListener, Registry.listenersOf, Registry.find]
  | cons p rest ih =>
    obtain ⟨k, s⟩ := p
    simp only [List.map_cons, List.nodup_cons] at hkeys
    by_cases hk : k = object
    · subst hk
      by_cases he : (s.erase ref).isEmpty = true
      · have hnil : s.erase ref = [] := by simpa using he
        simp [Registry.removeListener, he, Registry.listenersOf, Registry.find, hnil,
          find_none_of_not_key rest k hkeys.1]
      · simp [Registry.removeListener, he, Registry.listenersOf, Registry.find]
    · have := ih hkeys.2
      simpa [Registry.removeListener, hk, Registry.listenersOf, Registry.find] using this

theorem find_removeListener_last (object ref : Nat) (r : Registry)
    (hkeys : (r.map Prod.fst).Nodup) (hlast : (r.listenersOf object).erase ref = []) :
    (Registry.removeListener object ref r).find object = none := by
  induction r with
  | nil => rfl
  | cons p rest ih =>
    obtain ⟨k, s⟩ := p
    simp only [List.map_cons, List.nodup_cons] at hkeys
    by_cases hk : k = object
    · subst hk
      have hs : s.erase ref = [] := by
        simpa [Registry.listenersOf, Registry.find] using hlast
      simp [Registry.removeListener, hs, find_none_of_not_key rest k hkeys.1]
    · have hl : (Registry.listenersOf rest object).erase ref = [] := by
        simpa [Registry.listenersOf, Registry.find, hk] using hlast
      simpa [Registry.removeListener, hk, Registry.find] using ih hkeys.2 hl

/-- C11. `removeMessageListener` removes exactly the association: after
`removeMessageListener(t, l)` the set of t is the old set without l, so l is
not registered for t any more and every other listener of t still is; the
entry of every other target is the same as before; and when l was the only
listener of t, the registry has no entry for key t at all. -/
theorem remove_listener_exact (d : MessageDispatcher) (t l : Nat)
    (hwf : d.messageListeners.WellFormed) :
    (d.removeMessageListener t l).messageListeners.listenersOf t =
      (d.messageListeners.listenersOf t).erase l ∧
    l ∉ (d.removeMessageListener t l).messageListeners.listenersOf t ∧
    (∀ other, other ≠ l →
      (other ∈ (d.removeMessageListener t l).messageListeners.listenersOf t ↔
        other ∈ d.messageListeners.listenersOf t)) ∧
    (∀ object, object ≠ t →
      (d.removeMessageListener t l).messageListeners.find object =
        d.messageListeners.find object) ∧
    ((∀ other ∈ d.messageListeners.listenersOf t, other = l) →
      (d.removeMessageListener t l).messageListeners.find t = none) := by
  have hnd := listenersOf_nodup _ hwf t
  have hset := listenersOf_removeListener t l d.messageListeners hwf.2
  simp only [MessageDispatcher.removeMessageListener]
  refine ⟨hset, ?_, ?_, ?_, ?_⟩
  · rw [hset]
    exact hnd.not_mem_erase
  · intro other hne
    rw [hset, hnd.mem_erase_iff]
    simp [hne]
  · intro object hne
    exact find_removeListener_other t l object _ hne
  · intro hall
    apply find_removeListener_last t l _ hwf.2
    rw [List.eq_nil_iff_forall_not_mem]
    intro a ha
    rw [hnd.mem_erase_iff] at ha
    exact ha.1 (hall a ha.2)

/-- Witness for C11: listeners 5 and 6 for target 1, listener 5 alone for
target 2. Removing 5 from target 1 leaves 6 there and leaves target 2 as it
was; removing 5 from target 2 leaves no entry for key 2. -/
theorem remove_listener_exact_witness :
    ((unblockedWith [(1, [5, 6]), (2, [5])] []).removeMessageListener 1 5).messageListeners.listenersOf 1 =
      ((unblockedWith [(1, [5, 6]), (2, [5])] []).messageListeners.listenersOf 1).erase 5 ∧
    ((unblockedWith [(1, [5, 6]), (2, [5])] []).removeMessageListener 1 5).messageListeners.find 2 =
      (unblockedWith [(1, [5, 6]), (2, [5])] []).messageListeners.find 2 ∧
    ((unblockedWith [(1, [5, 6]), (2, [5])] []).removeMessageListener 2 5).messageListeners.find 2 =
      none :=
  ⟨(remove_listener_exact (unblockedWith [(1, [5, 6]), (2, [5])] []) 1 5 (by decide)).1,
   (remove_listener_exact (unblockedWith [(1, [5, 6]), (2, [5])] []) 1 5
      (by decide)).2.2.2.1 2 (by decide),
   (remove_listener_exact (unblockedWith [(1, [5, 6]), (2, [5])] []) 2 5
      (by decide)).2.2.2.2 (by decide)⟩

theorem removeListener_absent_noop (object ref : Nat) (r : Registry)
    (hne : ∀ p ∈ r, p.2 ≠ []) (habs : ref ∉ r.listenersOf object) :
    Registry.removeListener object ref r = r := by
  induction r with
  | nil => rfl
  | cons p rest ih =>
    obtain ⟨k, s⟩ := p
    have hs : s ≠ [] := hne (k, s) (by simp)
    have hrest : ∀ p ∈ rest, p.2 ≠ [] := fun p hp => hne p (by simp [hp])
    by_cases hk : k = object
    · have hmem : ref ∉ s := by
        simpa [Registry.listenersOf, Registry.find, hk] using habs
      have he : s.erase ref = s := List.erase_of_not_mem hmem
      simp [Registry.removeListener, hk, he, hs]
    · have habs2 : ref ∉ Registry.listenersOf rest object := by
        simpa [Registry.listenersOf, Registry.find, hk] using habs
      simp [Registry.removeListener, hk, ih hrest habs2]

/-- C13, the code at the failing input. A null listener is registered for
target 1, a record for target 1 is enqueued and `dequeueMessages` runs: the
pruning pass erases the null reference from the set of target 1 and leaves the
key in the registry with an empty set. `removeMessageListener`, in contrast,
erases the key when it has emptied the set. -/
theorem pruning_leaves_empty_set :
    (World.run 77 [Op.setBlockMessages false, Op.addMessageListener 1 0,
        Op.enqueueMessage 1 2 0 [], Op.dequeueMessages]).dispatcher.messageListeners =
      [(1, [])] ∧
    (World.run 77 [Op.setBlockMessages false, Op.addMessageListener 1 0,
        Op.enqueueMessage 1 2 0 [], Op.dequeueMessages]).dispatcher.messageListeners.find 1 =
      some [] ∧
    (World.run 77 [Op.setBlockMessages false, Op.addMessageListener 1 0,
        Op.removeMessageListener 1 0]).dispatcher.messageListeners = [] := by
  decide

/-- C12, the code at the failing input. In the state reached above, where the
pruning pass has left target 1 with an empty set, listener 5 is not registered
for target 1, and `removeMessageListener(1, 5)` changes the registry: it
erases key 1. -/
theorem remove_absent_changes_registry :
    5 ∉ (World.run 77 [Op.setBlockMessages false, Op.addMessageListener 1 0,
        Op.enqueueMessage 1 2 0 [], Op.dequeueMessages]).dispatcher.messageListeners.listenersOf 1 ∧
    (World.run 77 [Op.setBlockMessages false, Op.addMessageListener 1 0,
        Op.enqueueMessage 1 2 0 [], Op.dequeueMessages]).dispatcher.messageListeners.map Prod.fst =
      [1] ∧
    (World.run 77 [Op.setBlockMessages false, Op.addMessageListener 1 0,
        Op.enqueueMessage 1 2 0 [], Op.dequeueMessages,
        Op.removeMessageListener 1 5]).dispatcher.messageListeners.map Prod.fst = [] := by
  decide

theorem removeListener_keys_sublist (object ref : Nat) (r : Registry) :
    ((Registry.removeListener object ref r).map Prod.fst).Sublist (r.map Prod.fst) := by
  induction r with
  | nil => simp [Registry.removeListener]
  | cons p rest ih =>
    obtain ⟨k, s⟩ := p
    by_cases hk : k = object
    · by_cases he : (s.erase ref).isEmpty = true
      · simp [Registry.removeListener, hk, he]
      · simp [Registry.removeListener, hk, he]
    · simpa [Registry.removeListener, hk] using ih

theorem removeListener_sets_sorted (object ref : Nat) (r : Registry)
    (h : ∀ p ∈ r, p.2.Pairwise (· < ·)) :
    ∀ p ∈ Registry.removeListener object ref r, p.2.Pairwise (· < ·) := by
  induction r with
  | nil => intro p hp; simp [Registry.removeListener] at hp
  | cons q rest ih =>
    obtain ⟨k, s⟩ := q
    have hrest : ∀ p ∈ rest, p.2.Pairwise (· < ·) := fun p hp => h p (by simp [hp])
    have hs : s.Pairwise (· < ·) := h (k, s) (by simp)
    intro p hp
    by_cases hk : k = object
    · by_cases he : (s.erase ref).isEmpty = true
      · simp only [Registry.removeListener, hk, he, if_true] at hp
        exact hrest p hp
      · have hp2 : p = (k, s.erase ref) ∨ p ∈ rest := by
          have he2 : (s.erase ref).isEmpty = false := by simpa using he
          simpa [Registry.removeListener, hk, he2] using hp
        rcases hp2 with rfl | hp2
        · exact hs.sublist (List.erase_sublist ref s)
        · exact hrest p hp2
    · simp only [Registry.removeListener, hk, if_false, List.mem_cons] at hp
      rcases hp with rfl | hp
      · exact hs
      · exact ih hrest p hp

theorem removeListener_wellFormed (object ref : Nat) (r : Registry) (hwf : r.WellFormed) :
    (Registry.removeListener object ref r).WellFormed :=
  ⟨removeListener_sets_sorted object ref r hwf.1,
   hwf.2.sublist (removeListener_keys_sublist object ref r)⟩

theorem eraseIterator_keys (target ref : Nat) (r : Registry) :
    (Registry.eraseIterator target ref r).map Prod.fst =
      if target ∈ r.map Prod.fst then r.map Prod.fst else r.map Prod.fst ++ [target] := by
  induction r with
  | nil => simp [Registry.eraseIterator]
  | cons p rest ih =>
    obtain ⟨k, s⟩ := p
    by_cases hk : k = target
    · simp [Registry.eraseIterator, hk]
    · have hk2 : ¬ target = k := fun e => hk e.symm
      by_cases hmem : target ∈ rest.map Prod.fst
      · simp only [Registry.eraseIterator, hk, if_false, List.map_cons, ih, hmem, if_true,
          List.mem_cons, or_true]
      · simp only [Registry.eraseIterator, hk, if_false, List.map_cons, ih, hmem,
          List.mem_cons, hk2, or_self, List.cons_append]

theorem eraseIterator_sets_sorted (target ref : Nat) (r : Registry)
    (h : ∀ p ∈ r, p.2.Pairwise (· < ·)) :
    ∀ p ∈ Registry.eraseIterator target ref r, p.2.Pairwise (· < ·) := by
  induction r with
  | nil =>
    intro p hp
    simp only [Registry.eraseIterator, List.mem_singleton] at hp
    subst hp
    simp
  | cons q rest ih =>
    obtain ⟨k, s⟩ := q
    have hrest : ∀ p ∈ rest, p.2.Pairwise (· < ·) := fun p hp => h p (by simp [hp])
    have hs : s.Pairwise (· < ·) := h (k, s) (by simp)
    intro p hp
    by_cases hk : k = target
    · simp only [Registry.eraseIterator, hk, if_true, List.mem_cons] at hp
      rcases hp with rfl | hp
      · exact hs.sublist (List.erase_sublist ref s)
      · exact hrest p hp
    · simp only [Registry.eraseIterator, hk, if_false, List.mem_cons] at hp
      rcases hp with rfl | hp
      · exact hs
      · exact ih hrest p hp

theorem eraseIterator_wellFormed (target ref : Nat) (r : Registry) (hwf : r.WellFormed) :
    (Registry.eraseIterator target ref r).WellFormed := by
  refine ⟨eraseIterator_sets_sorted target ref r hwf.1, ?_⟩
  rw [eraseIterator_keys]
  by_cases hmem : target ∈ r.map Prod.fst
  · simpa [hmem] using hwf.2
  · simp only [hmem, if_false]
    rw [List.nodup_append]
    refine ⟨hwf.2, by simp, ?_⟩
    intro a ha hb
    simp only [List.mem_singleton] at hb
    exact hmem (hb ▸ ha)

theorem foldl_eraseIterator_wellFormed (entries : List (Nat × Nat)) :
    ∀ r : Registry, r.WellFormed →
      (entries.foldl (fun r p => Registry.eraseIterator p.1 p.2 r) r).WellFormed := by
  induction entries with
  | nil => intro r h; exact h
  | cons e es ih =>
    intro r h
    exact ih _ (eraseIterator_wellFormed e.1 e.2 r h)

theorem pruneNullListeners_wellFormed (entries : List (Nat × Nat)) (r : Registry)
    (hwf : r.WellFormed) : (pruneNullListeners entries r).WellFormed :=
  foldl_eraseIterator_wellFormed entries.reverse r hwf

theorem dequeueMessages_wellFormed (deleted : List Nat) (emptySym : Nat)
    (d : MessageDispatcher) (hwf : d.messageListeners.WellFormed) :
    (d.dequeueMessages deleted emptySym).2.messageListeners.WellFormed :=
  pruneNullListeners_wellFormed _ _ hwf

/-! ## Reachable states -/

theorem ctor_bound (target symbol : Nat) (argc : Int) (argv : List t_atom) :
    (Message.ctor target symbol argc argv).size ≤ 8 ∧
    (Message.ctor target symbol argc argv).data.length ≤ 8 := by
  constructor
  · simp [Message.ctor]
  · simp only [Message.ctor, List.length_take]
    omega

theorem expectedCalls_shape (deleted : List Nat) (emptySym : Nat) (reg : Registry)
    (batch : List Message) :
    ∀ c ∈ expectedCalls deleted emptySym reg batch,
      c = callFor emptySym c.record c.listener ∧
      c.listener ∈ reg.listenersOf c.record.target := by
  intro c hc
  simp only [expectedCalls, List.mem_flatMap, List.mem_map, List.mem_filter] at hc
  obtain ⟨m, _, x, ⟨hx, _⟩, rfl⟩ := hc
  exact ⟨rfl, hx⟩

theorem enqueueMessage_inv (d : MessageDispatcher) (target symbol : Nat) (argc : Int)
    (argv : List t_atom) :
    (d.enqueueMessage target symbol argc argv).messageStack.standby = d.messageStack.standby ∧
    (d.enqueueMessage target symbol argc argv).messageListeners = d.messageListeners ∧
    (d.enqueueMessage target symbol argc argv).block = d.block ∧
    (d.block = true → d.enqueueMessage target symbol argc argv = d) ∧
    (∀ m ∈ (d.enqueueMessage target symbol argc argv).messageStack.active,
      m ∈ d.messageStack.active ∨ m = Message.ctor target symbol argc argv) := by
  unfold MessageDispatcher.enqueueMessage ThreadSafeStack.push
  by_cases hb : d.block = true
  · simp [hb]
    exact fun m hm => Or.inl hm
  · by_cases hlt : d.messageStack.active.length < stackSize
    · simp [hb, hlt]
    · simp [hb, hlt]
      exact fun m hm => Or.inl hm

theorem step_inv (emptySym : Nat) (w : World) (op : Op) (h : w.Inv) :
    (w.step emptySym op).Inv := by
  obtain ⟨hsb, hbq, hwf, hblk, hsz, hcalls⟩ := h
  cases op with
  | enqueueMessage t sy ac av =>
    have he := enqueueMessage_inv w.dispatcher t sy ac av
    refine ⟨?_, ?_, ?_, ?_, ?_, hcalls⟩
    · exact he.1.trans hsb
    · exact (enqueueMessage_backupQueue _ _ _ _ _).trans hbq
    · simp only [World.step]; rw [he.2.1]; exact hwf
    · intro hb
      simp only [World.step] at hb ⊢
      rw [he.2.2.1] at hb
      rw [he.2.2.2.1 hb]
      exact hblk hb
    · intro m hm
      rcases he.2.2.2.2 m hm with h1 | h1
      · exact hsz m h1
      · rw [h1]; exact ctor_bound t sy ac av
  | setBlockMessages b =>
    cases b with
    | true =>
      have hst := setBlockMessages_true_stack w.dispatcher
      refine ⟨?_, ?_, hwf, ?_, ?_, hcalls⟩
      · simp only [World.step]; rw [hst]
      · exact (setBlockMessages_backupQueue _ _).trans hbq
      · intro _; simp only [World.step]; rw [hst]
      · intro m hm
        simp only [World.step] at hm
        rw [hst] at hm
        simp at hm
    | false =>
      refine ⟨hsb, hbq, hwf, ?_, hsz, hcalls⟩
      intro hb
      simp [World.step, MessageDispatcher.setBlockMessages] at hb
  | addMessageListener o l =>
    exact ⟨hsb, hbq, insertListener_wellFormed o l _ hwf, hblk, hsz, hcalls⟩
  | removeMessageListener o l =>
    exact ⟨hsb, hbq, removeListener_wellFormed o l _ hwf, hblk, hsz, hcalls⟩
  | dequeueMessages =>
    have hst := dequeueMessages_stack w.deleted emptySym w.dispatcher
    rw [hsb] at hst
    refine ⟨?_, hbq, dequeueMessages_wellFormed _ _ _ hwf, ?_, ?_, ?_⟩
    · simp only [World.step]; rw [hst]
    · intro _; simp only [World.step]; rw [hst]
    · intro m hm
      simp only [World.step] at hm
      rw [hst] at hm
      simp at hm
    · intro c hc
      simp only [World.step, List.mem_append] at hc
      rcases hc with hc | hc
      · exact hcalls c hc
      · rw [dequeueMessages_calls] at hc
        have hrec := hsz _ (expectedCalls_record_mem _ _ _ _ c hc)
        have hshape := (expectedCalls_shape _ _ _ _ c hc).1
        rw [hshape]
        simp only [callFor, List.length_take]
        exact ⟨hrec.1, by omega⟩
  | destroyListener l => exact ⟨hsb, hbq, hwf, hblk, hsz, hcalls⟩

theorem runFrom_inv (emptySym : Nat) (ops : List Op) :
    ∀ w : World, w.Inv → (w.runFrom emptySym ops).Inv := by
  induction ops with
  | nil => intro w h; exact h
  | cons op rest ih =>
    intro w h
    exact ih _ (step_inv emptySym w op h)

theorem init_inv : World.init.Inv := by
  refine ⟨rfl, rfl, by decide, fun _ => rfl, ?_, ?_⟩
  · intro m hm; simp [World.init, MessageDispatcher.init] at hm
  · intro c hc; simp [World.init] at hc

theorem run_inv (emptySym : Nat) (ops : List Op) : (World.run emptySym ops).Inv :=
  runFrom_inv emptySym ops World.init init_inv

theorem runFrom_append (emptySym : Nat) (w : World) (ops more : List Op) :
    w.runFrom emptySym (ops ++ more) = (w.runFrom emptySym ops).runFrom emptySym more := by
  simp [World.runFrom, List.foldl_append]

/-! ## Delivery order -/

theorem survivorsFrom_index (batch : List Message) :
    ∀ used, (survivorsFrom used batch).Pairwise
      fun a b => batch.indexOf a < batch.indexOf b := by
  induction batch with
  | nil => intro used; simp [survivorsFrom]
  | cons x xs ih =>
    intro used
    have lift : ∀ used2, (∀ a ∈ survivorsFrom used2 xs, a ≠ x) →
        (survivorsFrom used2 xs).Pairwise
          fun a b => (x :: xs).indexOf a < (x :: xs).indexOf b := by
      intro used2 hne
      refine List.Pairwise.imp_of_mem ?_ (ih used2)
      intro a b ha hb hlt
      rw [List.indexOf_cons_ne _ (Ne.symm (hne a ha)), List.indexOf_cons_ne _ (Ne.symm (hne b hb))]
      exact Nat.succ_lt_succ hlt
    by_cases h : messageHash x ∈ used
    · simp only [survivorsFrom, h, if_true]
      apply lift
      intro a ha e
      exact survivorsFrom_not_used xs used a ha (e ▸ h)
    · simp only [survivorsFrom, h, if_false, List.pairwise_cons]
      have hne : ∀ a ∈ survivorsFrom (messageHash x :: used) xs, a ≠ x := by
        intro a ha e
        have := survivorsFrom_not_used xs _ a ha
        simp [e] at this
      refine ⟨?_, lift _ hne⟩
      intro a ha
      rw [List.indexOf_cons_self, List.indexOf_cons_ne _ (Ne.symm (hne a ha))]
      exact Nat.succ_pos _

/-- C14. Delivery order: the active buffer lists the pending records in the
order in which they were enqueued. The callbacks of one `dequeueMessages` call
are made in that order of their records: of two callbacks, the earlier one is
for the same record as the later one or for a record enqueued before it. So
when r1 was enqueued before r2, no callback for r2 comes before a callback
for r1. Every callback is for a pending record. -/
theorem delivery_in_enqueue_order (deleted : List Nat) (emptySym : Nat)
    (d : MessageDispatcher) :
    ((d.dequeueMessages deleted emptySym).1.Pairwise fun c1 c2 =>
      c1.record = c2.record ∨
        d.messageStack.active.indexOf c1.record < d.messageStack.active.indexOf c2.record) ∧
    (∀ c ∈ (d.dequeueMessages deleted emptySym).1, c.record ∈ d.messageStack.active) := by
  rw [dequeueMessages_calls]
  refine ⟨?_, expectedCalls_record_mem _ _ _ _⟩
  unfold expectedCalls
  rw [List.pairwise_flatMap]
  constructor
  · intro m _
    rw [List.pairwise_map]
    exact List.pairwise_of_forall (fun _ _ => Or.inl rfl)
  · refine (survivorsFrom_index d.messageStack.active []).imp ?_
    intro a b hlt x hx y hy
    simp only [List.mem_map] at hx hy
    obtain ⟨_, _, rfl⟩ := hx
    obtain ⟨_, _, rfl⟩ := hy
    exact Or.inr hlt

/-! ## Drain cycles -/

theorem survivors_singleton (m : Message) : survivors [m] = [m] := by
  simp [survivors, survivorsFrom]

/-- C15. Coalescing is per drain cycle only: `dequeueMessages` starts from an
empty `usedHashes`, whatever the previous call left there. After any
`dequeueMessages` call on an unblocked dispatcher, a record that is enqueued
next is delivered by the following `dequeueMessages` call to a live listener
registered for its target, exactly once, also when the previous call delivered
a record with the same target and symbol. -/
theorem coalescing_is_per_drain (deleted1 deleted2 : List Nat) (emptySym : Nat)
    (d : MessageDispatcher) (target symbol : Nat) (argc : Int) (argv : List t_atom) (l : Nat)
    (hblock : d.block = false) (hstandby : d.messageStack.standby = [])
    (hwf : d.messageListeners.WellFormed)
    (hreg : l ∈ (d.dequeueMessages deleted1 emptySym).2.messageListeners.listenersOf target)
    (hlive : isLive deleted2 l = true) :
    ((((d.dequeueMessages deleted1 emptySym).2.enqueueMessage target symbol argc
        argv).dequeueMessages deleted2 emptySym).1.filter fun c => c.listener == l) =
      [callFor emptySym (Message.ctor target symbol argc argv) l] := by
  have hst := dequeueMessages_stack deleted1 emptySym d
  rw [hstandby] at hst
  have hb : (d.dequeueMessages deleted1 emptySym).2.block = false := hblock
  have hwf1 := dequeueMessages_wellFormed deleted1 emptySym d hwf
  have hact : ((d.dequeueMessages deleted1 emptySym).2.enqueueMessage target symbol argc
      argv).messageStack.active = [Message.ctor target symbol argc argv] := by
    simp [MessageDispatcher.enqueueMessage, hb, ThreadSafeStack.push, hst, stackSize]
  have hregs : ((d.dequeueMessages deleted1 emptySym).2.enqueueMessage target symbol argc
      argv).messageListeners = (d.dequeueMessages deleted1 emptySym).2.messageListeners :=
    (enqueueMessage_inv _ _ _ _ _).2.1
  rw [dequeueMessages_calls, hact, hregs, expectedCalls_filter_listener _ _ _ hwf1,
    survivors_singleton]
  have ht : (Message.ctor target symbol argc argv).target = target := rfl
  simp only [List.flatMap_cons, List.flatMap_nil, List.append_nil, ht]
  rw [if_pos ⟨hreg, hlive⟩]

/-- Witness for C15: the first call delivers a record for target 1 with symbol
2 and leaves its hash in `usedHashes`; a record with the same target and
symbol is enqueued and delivered by the second call. -/
theorem coalescing_is_per_drain_witness :
    messageHash (Message.ctor 1 2 1 [t_atom.A_FLOAT 8]) ∈
      ((unblockedWith [(1, [5])] [Message.ctor 1 2 0 []]).dequeueMessages [] 77).2.usedHashes ∧
    (((((unblockedWith [(1, [5])] [Message.ctor 1 2 0 []]).dequeueMessages
        [] 77).2.enqueueMessage 1 2 1 [t_atom.A_FLOAT 8]).dequeueMessages [] 77).1.filter
        fun c => c.listener == 5) =
      [callFor 77 (Message.ctor 1 2 1 [t_atom.A_FLOAT 8]) 5] :=
  ⟨by decide,
   coalescing_is_per_drain [] [] 77 (unblockedWith [(1, [5])] [Message.ctor 1 2 0 []]) 1 2 1
     [t_atom.A_FLOAT 8] 5 rfl rfl (by decide) (by decide) (by decide)⟩

theorem step_no_enqueue (emptySym : Nat) (w : World) (op : Op)
    (hop : op.isEnqueue = false) (h : w.dispatcher.messageStack = ⟨[], []⟩) :
    (w.step emptySym op).dispatcher.messageStack = ⟨[], []⟩ ∧
    (w.step emptySym op).calls = w.calls := by
  cases op with
  | enqueueMessage t sy ac av => simp [Op.isEnqueue] at hop
  | setBlockMessages b =>
    cases b with
    | true => exact ⟨setBlockMessages_true_stack _, rfl⟩
    | false => exact ⟨h, rfl⟩
  | addMessageListener o l => exact ⟨h, rfl⟩
  | removeMessageListener o l => exact ⟨h, rfl⟩
  | dequeueMessages =>
    constructor
    · simp only [World.step]
      rw [dequeueMessages_stack, h]
    · simp only [World.step]
      rw [dequeueMessages_calls_of_empty _ _ _ (by rw [h])]
      simp
  | destroyListener l => exact ⟨h, rfl⟩

theorem runFrom_no_enqueue (emptySym : Nat) (ops : List Op) :
    ∀ w : World, (∀ op ∈ ops, op.isEnqueue = false) →
      w.dispatcher.messageStack = ⟨[], []⟩ →
      (w.runFrom emptySym ops).dispatcher.messageStack = ⟨[], []⟩ ∧
      (w.runFrom emptySym ops).calls = w.calls := by
  induction ops with
  | nil => intro w _ h; exact ⟨h, rfl⟩
  | cons op rest ih =>
    intro w hno h
    have h1 := step_no_enqueue emptySym w op (hno op (by simp)) h
    have h2 := ih (w.step emptySym op) (fun o ho => hno o (by simp [ho])) h1.1
    exact ⟨h2.1, h2.2.trans h1.2⟩

/-- C17. Records are consumed by the drain that sees them: in every state
reachable from construction, after a `dequeueMessages` call both buffers of the
channel are empty; and whatever calls follow, as long as none of them is an
`enqueueMessage`, the channel stays empty and no further callback is made, in
particular by a second `dequeueMessages`. A record is delivered in at most
one drain. -/
theorem drained_records_are_consumed (emptySym : Nat) (ops later : List Op)
    (hlater : ∀ op ∈ later, op.isEnqueue = false) :
    (World.run emptySym (ops ++ [Op.dequeueMessages])).dispatcher.messageStack = ⟨[], []⟩ ∧
    (World.run emptySym (ops ++ [Op.dequeueMessages] ++ later)).dispatcher.messageStack =
      ⟨[], []⟩ ∧
    (World.run emptySym (ops ++ [Op.dequeueMessages] ++ later)).calls =
      (World.run emptySym (ops ++ [Op.dequeueMessages])).calls := by
  have hinv := run_inv emptySym ops
  have h1 : (World.run emptySym (ops ++ [Op.dequeueMessages])).dispatcher.messageStack =
      ⟨[], []⟩ := by
    unfold World.run
    rw [runFrom_append]
    show ((World.runFrom emptySym World.init ops).step emptySym
      Op.dequeueMessages).dispatcher.messageStack = ⟨[], []⟩
    simp only [World.step]
    rw [dequeueMessages_stack]
    have : (World.runFrom emptySym World.init ops).dispatcher.messageStack.standby = [] := hinv.1
    rw [this]
  refine ⟨h1, ?_⟩
  have h2 := runFrom_no_enqueue emptySym later
    (World.run emptySym (ops ++ [Op.dequeueMessages])) hlater h1
  have happ : World.run emptySym (ops ++ [Op.dequeueMessages] ++ later) =
      (World.run emptySym (ops ++ [Op.dequeueMessages])).runFrom emptySym later := by
    unfold World.run
    rw [runFrom_append]
  rw [happ]
  exact h2

/-- Witness for C17: a record is delivered by the first drain; a listener is
added and two more drains follow without any `enqueueMessage`. -/
theorem drained_records_are_consumed_witness :
    (World.run 77 ([Op.setBlockMessages false, Op.addMessageListener 1 5,
        Op.enqueueMessage 1 2 0 []] ++ [Op.dequeueMessages])).dispatcher.messageStack =
      ⟨[], []⟩ ∧
    (World.run 77 ([Op.setBlockMessages false, Op.addMessageListener 1 5,
        Op.enqueueMessage 1 2 0 []] ++ [Op.dequeueMessages] ++
        [Op.dequeueMessages, Op.addMessageListener 1 6,
          Op.dequeueMessages])).dispatcher.messageStack = ⟨[], []⟩ ∧
    (World.run 77 ([Op.setBlockMessages false, Op.addMessageListener 1 5,
        Op.enqueueMessage 1 2 0 []] ++ [Op.dequeueMessages] ++
        [Op.dequeueMessages, Op.addMessageListener 1 6, Op.dequeueMessages])).calls =
      (World.run 77 ([Op.setBlockMessages false, Op.addMessageListener 1 5,
        Op.enqueueMessage 1 2 0 []] ++ [Op.dequeueMessages])).calls :=
  drained_records_are_consumed 77
    [Op.setBlockMessages false, Op.addMessageListener 1 5, Op.enqueueMessage 1 2 0 []]
    [Op.dequeueMessages, Op.addMessageListener 1 6, Op.dequeueMessages] (by decide)

/-! ## The Blocked state -/

theorem pruneNullListeners_nil (r : Registry) : pruneNullListeners [] r = r := rfl

/-- C18. Blocked implies empty channels: in every state reachable from
construction by `enqueueMessage`, `setBlockMessages`, `dequeueMessages`,
`addMessageListener` and `removeMessageListener` calls (and destructions of
listeners) in which the block flag is set, both buffers of the channel and the
overflow queue are empty. A `dequeueMessages` call in such a state makes no
callback and leaves the channel, the overflow queue, the registry and the
flag as they are; its two scratch containers, which every call clears first,
are empty afterwards. -/
theorem blocked_channels_are_empty (emptySym : Nat) (ops : List Op) (deleted : List Nat)
    (hblock : (World.run emptySym ops).dispatcher.block = true) :
    (World.run emptySym ops).dispatcher.messageStack = ⟨[], []⟩ ∧
    (World.run emptySym ops).dispatcher.backupQueue = [] ∧
    ((World.run emptySym ops).dispatcher.dequeueMessages deleted emptySym).1 = [] ∧
    ((World.run emptySym ops).dispatcher.dequeueMessages deleted emptySym).2.messageStack =
      (World.run emptySym ops).dispatcher.messageStack ∧
    ((World.run emptySym ops).dispatcher.dequeueMessages deleted emptySym).2.backupQueue =
      (World.run emptySym ops).dispatcher.backupQueue ∧
    ((World.run emptySym ops).dispatcher.dequeueMessages deleted emptySym).2.messageListeners =
      (World.run emptySym ops).dispatcher.messageListeners ∧
    ((World.run emptySym ops).dispatcher.dequeueMessages deleted emptySym).2.block =
      (World.run emptySym ops).dispatcher.block ∧
    ((World.run emptySym ops).dispatcher.dequeueMessages deleted emptySym).2.usedHashes = [] ∧
    ((World.run emptySym ops).dispatcher.dequeueMessages deleted emptySym).2.nullListeners =
      [] := by
  obtain ⟨hsb, hbq, _, hblk, _, _⟩ := run_inv emptySym ops
  have hact := hblk hblock
  have hstack : (World.run emptySym ops).dispatcher.messageStack = ⟨[], []⟩ := by
    cases hms : (World.run emptySym ops).dispatcher.messageStack with
    | mk a sb =>
      rw [hms] at hsb hact
      simp only at hsb hact
      rw [hsb, hact]
  refine ⟨hstack, hbq, dequeueMessages_calls_of_empty _ _ _ hact, ?_, rfl, ?_, rfl, ?_, ?_⟩
  · rw [dequeueMessages_stack, hsb, hstack]
  · rw [dequeueMessages_registry, hact]
    rfl
  · simp [MessageDispatcher.dequeueMessages, popAll_eq, ThreadSafeStack.swapBuffers, hact]
  · simp [MessageDispatcher.dequeueMessages, popAll_eq, ThreadSafeStack.swapBuffers, hact]

/-- Witness for C18: records are enqueued while unblocked, one drain runs,
more records are enqueued, and the dispatcher is blocked again. -/
theorem blocked_channels_are_empty_witness :
    (World.run 77 [Op.setBlockMessages false, Op.addMessageListener 1 5,
        Op.enqueueMessage 1 2 0 [], Op.dequeueMessages, Op.enqueueMessage 1 3 0 [],
        Op.setBlockMessages true, Op.enqueueMessage 1 4 0 []]).dispatcher.messageStack =
      ⟨[], []⟩ ∧
    (World.run 77 [Op.setBlockMessages false, Op.addMessageListener 1 5,
        Op.enqueueMessage 1 2 0 [], Op.dequeueMessages, Op.enqueueMessage 1 3 0 [],
        Op.setBlockMessages true, Op.enqueueMessage 1 4 0 []]).dispatcher.backupQueue = [] ∧
    ((World.run 77 [Op.setBlockMessages false, Op.addMessageListener 1 5,
        Op.enqueueMessage 1 2 0 [], Op.dequeueMessages, Op.enqueueMessage 1 3 0 [],
        Op.setBlockMessages true, Op.enqueueMessage 1 4 0 []]).dispatcher.dequeueMessages
        [] 77).1 = [] :=
  ⟨(blocked_channels_are_empty 77 [Op.setBlockMessages false, Op.addMessageListener 1 5,
      Op.enqueueMessage 1 2 0 [], Op.dequeueMessages, Op.enqueueMessage 1 3 0 [],
      Op.setBlockMessages true, Op.enqueueMessage 1 4 0 []] [] (by decide)).1,
   (blocked_channels_are_empty 77 [Op.setBlockMessages false, Op.addMessageListener 1 5,
      Op.enqueueMessage 1 2 0 [], Op.dequeueMessages, Op.enqueueMessage 1 3 0 [],
      Op.setBlockMessages true, Op.enqueueMessage 1 4 0 []] [] (by decide)).2.1,
   (blocked_channels_are_empty 77 [Op.setBlockMessages false, Op.addMessageListener 1 5,
      Op.enqueueMessage 1 2 0 [], Op.dequeueMessages, Op.enqueueMessage 1 3 0 [],
      Op.setBlockMessages true, Op.enqueueMessage 1 4 0 []] [] (by decide)).2.2.1⟩

/-! ## Payload -/

/-- C19. Payload bound: for every `argc`, the record that `enqueueMessage`
builds has `size` at most 8 and holds at most 8 atoms. In every state reachable
from construction every pending record is within that bound, and every
callback made was given at most 8 atoms with `numAtoms` at most 8: the copy
loop of `dequeueMessages`, which runs over the indices below `size`, stays
below index 8. -/
theorem payload_bound (emptySym : Nat) (ops : List Op) (target symbol : Nat) (argc : Int)
    (argv : List t_atom) :
    (Message.ctor target symbol argc argv).size ≤ 8 ∧
    (Message.ctor target symbol argc argv).data.length ≤ 8 ∧
    (∀ m ∈ (World.run emptySym ops).dispatcher.messageStack.active,
      m.size ≤ 8 ∧ m.data.length ≤ 8) ∧
    (∀ m ∈ (World.run emptySym ops).dispatcher.messageStack.standby,
      m.size ≤ 8 ∧ m.data.length ≤ 8) ∧
    (∀ c ∈ (World.run emptySym ops).calls, c.numAtoms ≤ 8 ∧ c.atoms.length ≤ 8) := by
  obtain ⟨hsb, _, _, _, hsz, hcalls⟩ := run_inv emptySym ops
  refine ⟨(ctor_bound target symbol argc argv).1, (ctor_bound target symbol argc argv).2,
    hsz, ?_, hcalls⟩
  intro m hm
  rw [hsb] at hm
  simp at hm

/-! ## Deregistration and later drains -/

theorem listenersOf_insertListener_other (object ref other : Nat) (r : Registry)
    (hne : other ≠ object) :
    (Registry.insertListener object ref r).listenersOf other = r.listenersOf other := by
  induction r with
  | nil => simp [Registry.insertListener, Registry.listenersOf, Registry.find, hne.symm]
  | cons p rest ih =>
    obtain ⟨k, s⟩ := p
    by_cases hk : k = object
    · subst hk
      simp [Registry.insertListener, Registry.listenersOf, Registry.find, hne.symm]
    · by_cases hko : k = other
      · subst hko
        simp [Registry.insertListener, Registry.listenersOf, Registry.find, hk]
      · simpa [Registry.insertListener, Registry.listenersOf, Registry.find, hk, hko] using ih

theorem listenersOf_eraseIterator_subset (target ref other : Nat) (r : Registry) :
    ∀ a ∈ (Registry.eraseIterator target ref r).listenersOf other, a ∈ r.listenersOf other := by
  induction r with
  | nil =>
    intro a ha
    by_cases h : target = other
    · simp [Registry.eraseIterator, Registry.listenersOf, Registry.find, h] at ha
    · simp [Registry.eraseIterator, Registry.listenersOf, Registry.find, h] at ha
  | cons p rest ih =>
    obtain ⟨k, s⟩ := p
    intro a ha
    by_cases hk : k = target
    · subst hk
      by_cases hko : k = other
      · subst hko
        simp only [Registry.eraseIterator, Registry.listenersOf, Registry.find, if_true,
          Option.getD_some] at ha ⊢
        exact List.mem_of_mem_erase ha
      · simpa [Registry.eraseIterator, Registry.listenersOf, Registry.find, hko] using ha
    · by_cases hko : k = other
      · subst hko
        simpa [Registry.eraseIterator, Registry.listenersOf, Registry.find, hk] using ha
      · have ha2 : a ∈ Registry.listenersOf (Registry.eraseIterator target ref rest) other := by
          simpa [Registry.eraseIterator, Registry.listenersOf, Registry.find, hk, hko] using ha
        have := ih a ha2
        simpa [Registry.listenersOf, Registry.find, hko] using this

theorem listenersOf_prune_subset (entries : List (Nat × Nat)) (other : Nat) :
    ∀ r : Registry, ∀ a ∈ (entries.foldl (fun r p => Registry.eraseIterator p.1 p.2 r)
      r).listenersOf other, a ∈ r.listenersOf other := by
  induction entries with
  | nil => intro r a ha; exact ha
  | cons e es ih =>
    intro r a ha
    exact listenersOf_eraseIterator_subset e.1 e.2 other r a (ih _ a ha)

theorem listenersOf_removeListener_subset (object ref other : Nat) (r : Registry)
    (hkeys : (r.map Prod.fst).Nodup) :
    ∀ a ∈ (Registry.removeListener object ref r).listenersOf other, a ∈ r.listenersOf other := by
  intro a ha
  by_cases h : other = object
  · subst h
    rw [listenersOf_removeListener other ref r hkeys] at ha
    exact List.mem_of_mem_erase ha
  · unfold Registry.listenersOf at ha ⊢
    rw [find_removeListener_other object ref other r h] at ha
    exact ha

theorem step_not_registered (emptySym : Nat) (t l : Nat) (w : World) (op : Op)
    (hop : op ≠ Op.addMessageListener t l)
    (hwf : w.dispatcher.messageListeners.WellFormed)
    (hnot : l ∉ w.dispatcher.messageListeners.listenersOf t) :
    l ∉ (w.step emptySym op).dispatcher.messageListeners.listenersOf t ∧
    ∃ made, (w.step emptySym op).calls = w.calls ++ made ∧
      ∀ c ∈ made, ¬ (c.listener = l ∧ c.record.target = t) := by
  cases op with
  | enqueueMessage tt sy ac av =>
    refine ⟨?_, [], by simp [World.step], by simp⟩
    simp only [World.step]
    rw [(enqueueMessage_inv _ _ _ _ _).2.1]
    exact hnot
  | setBlockMessages b =>
    refine ⟨?_, [], by simp [World.step], by simp⟩
    cases b <;> exact hnot
  | addMessageListener o x =>
    refine ⟨?_, [], by simp [World.step], by simp⟩
    simp only [World.step, MessageDispatcher.addMessageListener]
    by_cases ho : t = o
    · subst ho
      rw [listenersOf_insertListener, mem_setInsert]
      intro hmem
      rcases hmem with h1 | h1
      · exact hop (by rw [h1])
      · exact hnot h1
    · rw [listenersOf_insertListener_other o x t _ ho]
      exact hnot
  | removeMessageListener o x =>
    refine ⟨?_, [], by simp [World.step], by simp⟩
    intro hmem
    exact hnot (listenersOf_removeListener_subset o x t _ hwf.2 l hmem)
  | dequeueMessages =>
    refine ⟨?_, (w.dispatcher.dequeueMessages w.deleted emptySym).1, rfl, ?_⟩
    · intro hmem
      exact hnot (listenersOf_prune_subset _ t _ l hmem)
    · intro c hc hboth
      rw [dequeueMessages_calls] at hc
      have hin := (expectedCalls_shape _ _ _ _ c hc).2
      rw [hboth.1, hboth.2] at hin
      exact hnot hin
  | destroyListener x => exact ⟨hnot, [], by simp [World.step], by simp⟩

theorem runFrom_not_registered (emptySym : Nat) (t l : Nat) (ops : List Op) :
    ∀ w : World, (∀ op ∈ ops, op ≠ Op.addMessageListener t l) → w.Inv →
      l ∉ w.dispatcher.messageListeners.listenersOf t →
      ∃ made, (w.runFrom emptySym ops).calls = w.calls ++ made ∧
        ∀ c ∈ made, ¬ (c.listener = l ∧ c.record.target = t) := by
  induction ops with
  | nil => intro w _ _ _; exact ⟨[], by simp [World.runFrom], by simp⟩
  | cons op rest ih =>
    intro w hno hinv hnot
    obtain ⟨hnot1, made1, hc1, hp1⟩ :=
      step_not_registered emptySym t l w op (hno op (by simp)) hinv.2.2.1 hnot
    obtain ⟨made2, hc2, hp2⟩ := ih (w.step emptySym op) (fun o ho => hno o (by simp [ho]))
      (step_inv emptySym w op hinv) hnot1
    refine ⟨made1 ++ made2, ?_, ?_⟩
    · show ((w.step emptySym op).runFrom emptySym rest).calls = w.calls ++ (made1 ++ made2)
      rw [hc2, hc1, List.append_assoc]
    · intro c hc
      rcases List.mem_append.mp hc with h | h
      · exact hp1 c h
      · exact hp2 c h

/-- C16. Deregistration takes effect for all future drains: in any state
reachable from construction, after `removeMessageListener(t, l)` and for every
sequence of later calls in which l is not added for t again, none of the
callbacks made after the removal is a `receiveMessage` on l for a record whose
target is t. -/
theorem removed_listener_not_called (emptySym : Nat) (t l : Nat) (ops later : List Op)
    (hlater : ∀ op ∈ later, op ≠ Op.addMessageListener t l) :
    ∀ c ∈ (World.run emptySym (ops ++ Op.removeMessageListener t l :: later)).calls.drop
        (World.run emptySym ops).calls.length,
      ¬ (c.listener = l ∧ c.record.target = t) := by
  have hinv := run_inv emptySym ops
  have hrun : World.run emptySym (ops ++ Op.removeMessageListener t l :: later) =
      ((World.run emptySym ops).step emptySym (Op.removeMessageListener t l)).runFrom
        emptySym later := by
    unfold World.run
    rw [runFrom_append]
    rfl
  have hinv1 := step_inv emptySym _ (Op.removeMessageListener t l) hinv
  have hnot : l ∉ ((World.run emptySym ops).step emptySym
      (Op.removeMessageListener t l)).dispatcher.messageListeners.listenersOf t := by
    simp only [World.step, MessageDispatcher.removeMessageListener]
    rw [listenersOf_removeListener t l _ hinv.2.2.1.2]
    exact (listenersOf_nodup _ hinv.2.2.1 t).not_mem_erase
  obtain ⟨made, hc, hp⟩ := runFrom_not_registered emptySym t l later _ hlater hinv1 hnot
  have hcalls : ((World.run emptySym ops).step emptySym (Op.removeMessageListener t l)).calls =
      (World.run emptySym ops).calls := rfl
  rw [hrun, hc, hcalls, List.drop_left]
  exact hp

/-- Witness for C16: listener 5 is registered for targets 1 and 2 and receives
a call for target 1; it is removed from target 1; records for both targets are
then enqueued and drained. After the removal listener 5 is called for target 2
only, and the record for target 1 goes to listener 6. -/
theorem removed_listener_not_called_witness :
    ((World.run 77 ([Op.setBlockMessages false, Op.addMessageListener 1 5,
        Op.addMessageListener 2 5, Op.enqueueMessage 1 3 0 [], Op.dequeueMessages] ++
        Op.removeMessageListener 1 5 ::
          [Op.enqueueMessage 1 3 0 [], Op.enqueueMessage 2 4 0 [], Op.addMessageListener 1 6,
            Op.dequeueMessages])).calls.drop
        (World.run 77 [Op.setBlockMessages false, Op.addMessageListener 1 5,
          Op.addMessageListener 2 5, Op.enqueueMessage 1 3 0 [],
          Op.dequeueMessages]).calls.length =
      [callFor 77 (Message.ctor 1 3 0 []) 6, callFor 77 (Message.ctor 2 4 0 []) 5]) ∧
    (∀ c ∈ (World.run 77 ([Op.setBlockMessages false, Op.addMessageListener 1 5,
        Op.addMessageListener 2 5, Op.enqueueMessage 1 3 0 [], Op.dequeueMessages] ++
        Op.removeMessageListener 1 5 ::
          [Op.enqueueMessage 1 3 0 [], Op.enqueueMessage 2 4 0 [], Op.addMessageListener 1 6,
            Op.dequeueMessages])).calls.drop
        (World.run 77 [Op.setBlockMessages false, Op.addMessageListener 1 5,
          Op.addMessageListener 2 5, Op.enqueueMessage 1 3 0 [],
          Op.dequeueMessages]).calls.length,
      ¬ (c.listener = 5 ∧ c.record.target = 1)) :=
  ⟨by decide,
   removed_listener_not_called 77 1 5
    [Op.setBlockMessages false, Op.addMessageListener 1 5, Op.addMessageListener 2 5,
      Op.enqueueMessage 1 3 0 [], Op.dequeueMessages]
    [Op.enqueueMessage 1 3 0 [], Op.enqueueMessage 2 4 0 [], Op.addMessageListener 1 6,
      Op.dequeueMessages] (by decide)⟩

/-! ## The deduplication rule -/

theorem foldl_processMessage_usedHashes (deleted : List Nat) (emptySym : Nat) (reg : Registry)
    (batch : List Message) :
    ∀ (st : LoopState) (h : Nat),
      h ∈ (batch.foldl (processMessage deleted emptySym reg) st).usedHashes ↔
        h ∈ st.usedHashes ∨ ∃ p ∈ batch, messageHash p = h := by
  induction batch with
  | nil => intro st h; simp
  | cons m ms ih =>
    intro st h
    rw [List.foldl_cons, ih, processMessage_eq]
    by_cases hm : messageHash m ∈ st.usedHashes
    · simp only [hm, if_true, List.mem_cons, exists_eq_or_imp]
      constructor
      · rintro (h1 | h1)
        · exact Or.inl h1
        · exact Or.inr (Or.inr h1)
      · rintro (h1 | h1 | h1)
        · exact Or.inl h1
        · exact Or.inl (h1 ▸ hm)
        · exact Or.inr h1
    · simp only [hm, if_false, List.mem_cons, exists_eq_or_imp]
      constructor
      · rintro ((h1 | h1) | h1)
        · exact Or.inr (Or.inl h1.symm)
        · exact Or.inl h1
        · exact Or.inr (Or.inr h1)
      · rintro (h1 | h1 | h1)
        · exact Or.inl (Or.inr h1)
        · exact Or.inl (Or.inl h1.symm)
        · exact Or.inr h1

/-- C22. The deduplication rule of the code: let `earlier` be the records
popped so far in a `dequeueMessages` call and m the record popped next. The
hash test skips m exactly when some earlier record has the same value of
target XOR symbol, whatever the registry holds. A skipped record leaves the
loop state as it is: no lookup, no delivery. A record that is not skipped has
its hash added and goes through the listener set of its target. -/
theorem dedup_rule_is_xor (deleted : List Nat) (emptySym : Nat) (reg : Registry)
    (earlier : List Message) (m : Message) :
    (messageHash m ∈ (earlier.foldl (processMessage deleted emptySym reg) ⟨[], [], []⟩).usedHashes ↔
      ∃ p ∈ earlier, p.target ^^^ p.symbol = m.target ^^^ m.symbol) ∧
    ((∃ p ∈ earlier, p.target ^^^ p.symbol = m.target ^^^ m.symbol) →
      processMessage deleted emptySym reg
          (earlier.foldl (processMessage deleted emptySym reg) ⟨[], [], []⟩) m =
        earlier.foldl (processMessage deleted emptySym reg) ⟨[], [], []⟩) ∧
    ((¬ ∃ p ∈ earlier, p.target ^^^ p.symbol = m.target ^^^ m.symbol) →
      processMessage deleted emptySym reg
          (earlier.foldl (processMessage deleted emptySym reg) ⟨[], [], []⟩) m =
        { usedHashes := (m.target ^^^ m.symbol) ::
            (earlier.foldl (processMessage deleted emptySym reg) ⟨[], [], []⟩).usedHashes,
          nullListeners :=
            (earlier.foldl (processMessage deleted emptySym reg) ⟨[], [], []⟩).nullListeners ++
              (deliver deleted emptySym m (reg.listenersOf m.target)).2,
          calls := (earlier.foldl (processMessage deleted emptySym reg) ⟨[], [], []⟩).calls ++
              (deliver deleted emptySym m (reg.listenersOf m.target)).1 }) := by
  have hiff : messageHash m ∈
      (earlier.foldl (processMessage deleted emptySym reg) ⟨[], [], []⟩).usedHashes ↔
      ∃ p ∈ earlier, p.target ^^^ p.symbol = m.target ^^^ m.symbol := by
    rw [foldl_processMessage_usedHashes]
    simp [messageHash]
  refine ⟨hiff, ?_, ?_⟩
  · intro h
    rw [processMessage_eq, if_pos (hiff.mpr h)]
  · intro h
    rw [processMessage_eq, if_neg (fun hc => h (hiff.mp hc))]
    rfl

/-- C23, the code at the failing input. A null listener is registered for
target 1 and two records for target 1 with different symbols are enqueued.
Both survive, each pass over the listener set records the same entry, and
`nullListeners` holds the pair of target 1 and that entry twice: the pruning
loop erases through the same iterator twice. -/
theorem null_entry_recorded_twice :
    (World.run 77 [Op.setBlockMessages false, Op.addMessageListener 1 0,
        Op.enqueueMessage 1 2 0 [], Op.enqueueMessage 1 3 0 [],
        Op.dequeueMessages]).dispatcher.nullListeners = [(1, 0), (1, 0)] ∧
    ¬ (World.run 77 [Op.setBlockMessages false, Op.addMessageListener 1 0,
        Op.enqueueMessage 1 2 0 [], Op.enqueueMessage 1 3 0 [],
        Op.dequeueMessages]).dispatcher.nullListeners.Nodup ∧
    (World.run 77 [Op.setBlockMessages false, Op.addMessageListener 1 0,
        Op.enqueueMessage 1 2 0 [], Op.enqueueMessage 1 3 0 []]).dispatcher.messageListeners =
      [(1, [0])] := by
  decide

/-! ## Record construction -/

/-- C24. Record construction truncates to the first eight atoms: for
`argc >= 0` and an atom array of length `argc`, the constructor stores the
target, the symbol, `size = min(argc, 8)` and the atoms `argv[i]` for i below
`size`, and no more than those; a copy of a record, and a record assigned
from it, are equal to it in all four fields. -/
theorem message_construction (ptr sym : Nat) (argc : Int) (argv : List t_atom)
    (self : Message) (hargc : 0 ≤ argc) (hlen : (argv.length : Int) = argc) :
    (Message.ctor ptr sym argc argv).target = ptr ∧
    (Message.ctor ptr sym argc argv).symbol = sym ∧
    (Message.ctor ptr sym argc argv).size = min argc 8 ∧
    (∀ i : Nat, (i : Int) < (Message.ctor ptr sym argc argv).size →
      i < argv.length ∧ (Message.ctor ptr sym argc argv).data[i]? = argv[i]?) ∧
    ((Message.ctor ptr sym argc argv).data.length : Int) = min argc 8 ∧
    (Message.ctor ptr sym argc argv).copy = Message.ctor ptr sym argc argv ∧
    self.assign (Message.ctor ptr sym argc argv) false = Message.ctor ptr sym argc argv ∧
    (Message.ctor ptr sym argc argv).assign (Message.ctor ptr sym argc argv) true =
      Message.ctor ptr sym argc argv := by
  refine ⟨rfl, rfl, rfl, ?_, ?_, rfl, rfl, rfl⟩
  · intro i hi
    simp only [Message.ctor] at hi ⊢
    have h1 : i < (min argc 8).toNat := by omega
    refine ⟨by omega, ?_⟩
    rw [List.getElem?_take]
    simp [h1]
  · simp only [Message.ctor, List.length_take]
    omega

/-- Witness for C24: ten atoms are passed, eight are kept. -/
theorem message_construction_witness :
    (Message.ctor 1 2 10 ((List.range 10).map t_atom.A_FLOAT)).target = 1 ∧
    (Message.ctor 1 2 10 ((List.range 10).map t_atom.A_FLOAT)).symbol = 2 ∧
    (Message.ctor 1 2 10 ((List.range 10).map t_atom.A_FLOAT)).size = min 10 8 ∧
    (∀ i : Nat, (i : Int) < (Message.ctor 1 2 10 ((List.range 10).map t_atom.A_FLOAT)).size →
      i < ((List.range 10).map t_atom.A_FLOAT).length ∧
        (Message.ctor 1 2 10 ((List.range 10).map t_atom.A_FLOAT)).data[i]? =
          ((List.range 10).map t_atom.A_FLOAT)[i]?) ∧
    ((Message.ctor 1 2 10 ((List.range 10).map t_atom.A_FLOAT)).data.length : Int) = min 10 8 ∧
    (Message.ctor 1 2 10 ((List.range 10).map t_atom.A_FLOAT)).copy =
      Message.ctor 1 2 10 ((List.range 10).map t_atom.A_FLOAT) ∧
    (Message.ctor 5 6 0 []).assign (Message.ctor 1 2 10 ((List.range 10).map t_atom.A_FLOAT))
        false = Message.ctor 1 2 10 ((List.range 10).map t_atom.A_FLOAT) ∧
    (Message.ctor 1 2 10 ((List.range 10).map t_atom.A_FLOAT)).assign
        (Message.ctor 1 2 10 ((List.range 10).map t_atom.A_FLOAT)) true =
      Message.ctor 1 2 10 ((List.range 10).map t_atom.A_FLOAT) :=
  message_construction 1 2 10 ((List.range 10).map t_atom.A_FLOAT) (Message.ctor 5 6 0 [])
    (by decide) (by decide)

/-! ## Lock discipline -/

theorem removeMessageListenerEvents_disciplined (reg : Registry) (object ref : Nat) :
    lockDiscipline false (removeMessageListenerEvents reg object ref) = true := by
  unfold removeMessageListenerEvents
  cases reg.find object with
  | none => rfl
  | some listeners =>
    by_cases h1 : ref ∈ listeners <;> by_cases h2 : (listeners.erase ref).isEmpty = true <;>
      simp [h1, h2, lockDiscipline]

/-- C21, the code at the failing input. A null listener and the live listener 5
are registered for target 1 and a record for target 1 is pending.
`dequeueMessages` makes one callback and then one write to the registry in its
pruning loop, and it never takes `messageListenerLock`: the write happens
without the lock. `addMessageListener` and `removeMessageListener` do write
under the lock, and the callback runs without it. -/
theorem pruning_runs_without_lock :
    dequeueMessagesEvents [] 77
        (World.run 77 [Op.setBlockMessages false, Op.addMessageListener 1 0,
          Op.addMessageListener 1 5, Op.enqueueMessage 1 2 0 []]).dispatcher =
      [LockEvent.callback, LockEvent.mutate] ∧
    lockDiscipline false (dequeueMessagesEvents [] 77
        (World.run 77 [Op.setBlockMessages false, Op.addMessageListener 1 0,
          Op.addMessageListener 1 5, Op.enqueueMessage 1 2 0 []]).dispatcher) = false ∧
    lockDiscipline false addMessageListenerEvents = true ∧
    lockDiscipline false (removeMessageListenerEvents
        (World.run 77 [Op.setBlockMessages false, Op.addMessageListener 1 0,
          Op.addMessageListener 1 5,
          Op.enqueueMessage 1 2 0 []]).dispatcher.messageListeners 1 5) = true := by
  decide

end pd

namespace plugdata

/-! ## NVGSurface: the surfaces map -/

theorem erase_null_keeps_entries (surfaces : Surfaces) (h : ∀ e ∈ surfaces, e.1 ≠ 0) :
    Surfaces.erase surfaces 0 = surfaces := by
  unfold Surfaces.erase
  rw [List.filter_eq_self]
  intro e he
  simpa using h e he

/-- C26, the code at the failing input. The surface at address 100 has the nvg
context 7 and is registered under it. `detachContext` runs with an active
context: it sets `nvg` to null and then erases the key `nvg`, which is null by
then. The map still has the entry for context 7, and
`getSurfaceForContext(7)` returns the surface, not null. -/
theorem detachContext_keeps_entry :
    NVGSurface.registerSurface ⟨100, 7, 0, 0⟩ [] = [(7, 100)] ∧
    (NVGSurface.detachContext true ⟨100, 7, 0, 0⟩ [(7, 100)]).1.nvg = 0 ∧
    (NVGSurface.detachContext true ⟨100, 7, 0, 0⟩ [(7, 100)]).2 = [(7, 100)] ∧
    Surfaces.count (NVGSurface.detachContext true ⟨100, 7, 0, 0⟩ [(7, 100)]).2 7 = 1 ∧
    NVGSurface.getSurfaceForContext
      (NVGSurface.detachContext true ⟨100, 7, 0, 0⟩ [(7, 100)]).2 7 = 100 := by
  decide

/-! ## NVGSurface: pixel bytes -/

theorem reorderPixel_eq (argb : Nat) :
    reorderPixel argb =
      2 ^ 24 * (argb / 2 ^ 24 % 256) + (2 ^ 16 * (argb % 256) +
        (2 ^ 8 * (argb / 2 ^ 8 % 256) + argb / 2 ^ 16 % 256)) := by
  unfold reorderPixel
  simp only [Nat.shiftRight_eq_div_pow, Nat.shiftLeft_eq]
  have hr : argb / 2 ^ 16 % 256 < 2 ^ 8 := by omega
  have hg : 2 ^ 8 * (argb / 2 ^ 8 % 256) + argb / 2 ^ 16 % 256 < 2 ^ 16 := by omega
  have hb : 2 ^ 16 * (argb % 256) + (2 ^ 8 * (argb / 2 ^ 8 % 256) + argb / 2 ^ 16 % 256) <
      2 ^ 24 := by omega
  rw [Nat.lor_assoc, Nat.lor_assoc]
  rw [Nat.mul_comm _ (2 ^ 8), Nat.mul_comm _ (2 ^ 16), Nat.mul_comm _ (2 ^ 24)]
  rw [← Nat.mul_add_lt_is_or hr, ← Nat.mul_add_lt_is_or hg, ← Nat.mul_add_lt_is_or hb]
  omega

theorem fields_of_bytes (a r g b : Nat) (ha : a < 256) (hr : r < 256) (hg : g < 256)
    (hb : b < 256) :
    (2 ^ 24 * a + (2 ^ 16 * r + (2 ^ 8 * g + b))) / 2 ^ 24 % 256 = a ∧
    (2 ^ 24 * a + (2 ^ 16 * r + (2 ^ 8 * g + b))) / 2 ^ 16 % 256 = r ∧
    (2 ^ 24 * a + (2 ^ 16 * r + (2 ^ 8 * g + b))) / 2 ^ 8 % 256 = g ∧
    (2 ^ 24 * a + (2 ^ 16 * r + (2 ^ 8 * g + b))) % 256 = b ∧
    2 ^ 24 * a + (2 ^ 16 * r + (2 ^ 8 * g + b)) < 2 ^ 32 := by
  refine ⟨?_, ?_, ?_, ?_, ?_⟩ <;> omega

theorem bytes_of_pixel (argb : Nat) (h32 : argb < 2 ^ 32) :
    argb = 2 ^ 24 * (argb / 2 ^ 24 % 256) + (2 ^ 16 * (argb / 2 ^ 16 % 256) +
      (2 ^ 8 * (argb / 2 ^ 8 % 256) + argb % 256)) := by
  omega

/-- C30. Pixel byte reordering in `NVGSurface::render`: for every 32-bit pixel
`argb` the value written is again a 32-bit value; its bits 24 to 31 (alpha) and
its bits 8 to 15 (green) are those of `argb`, its bits 16 to 23 are bits 0 to 7
of `argb` and its bits 0 to 7 are bits 16 to 23 of `argb`: the bytes are in the
order a, b, g, r. Reordering twice gives back `argb`. -/
theorem reorderPixel_swaps_red_and_blue (argb : Nat) (h32 : argb < 2 ^ 32) :
    reorderPixel argb < 2 ^ 32 ∧
    (reorderPixel argb >>> 24) % 256 = (argb >>> 24) % 256 ∧
    (reorderPixel argb >>> 8) % 256 = (argb >>> 8) % 256 ∧
    (reorderPixel argb >>> 16) % 256 = argb % 256 ∧
    reorderPixel argb % 256 = (argb >>> 16) % 256 ∧
    reorderPixel (reorderPixel argb) = argb := by
  have ha : argb / 2 ^ 24 % 256 < 256 := Nat.mod_lt _ (by decide)
  have hr : argb / 2 ^ 16 % 256 < 256 := Nat.mod_lt _ (by decide)
  have hg : argb / 2 ^ 8 % 256 < 256 := Nat.mod_lt _ (by decide)
  have hb : argb % 256 < 256 := Nat.mod_lt _ (by decide)
  have hf := fields_of_bytes _ _ _ _ ha hb hg hr
  have hy := reorderPixel_eq argb
  rw [← hy] at hf
  obtain ⟨f1, f2, f3, f4, f5⟩ := hf
  simp only [Nat.shiftRight_eq_div_pow]
  refine ⟨f5, f1, f3, f2, f4, ?_⟩
  rw [reorderPixel_eq (reorderPixel argb), f1, f2, f3, f4]
  exact (bytes_of_pixel argb h32).symm

/-- Witness for C30: the pixel with alpha 0x80, red 0x11, green 0x22 and blue
0x33 becomes the one with the bytes 0x80, 0x33, 0x22, 0x11. -/
theorem reorderPixel_swaps_red_and_blue_witness :
    reorderPixel 0x80112233 = 0x80332211 ∧
    reorderPixel 0x80112233 < 2 ^ 32 ∧
    (reorderPixel 0x80112233 >>> 24) % 256 = (0x80112233 >>> 24) % 256 ∧
    (reorderPixel 0x80112233 >>> 8) % 256 = (0x80112233 >>> 8) % 256 ∧
    (reorderPixel 0x80112233 >>> 16) % 256 = 0x80112233 % 256 ∧
    reorderPixel 0x80112233 % 256 = (0x80112233 >>> 16) % 256 ∧
    reorderPixel (reorderPixel 0x80112233) = 0x80112233 :=
  ⟨by decide, reorderPixel_swaps_red_and_blue 0x80112233 (by decide)⟩

/-! ## RadioObject -/

/-- C27, the code at the failing input. For the symbol `set` (and likewise
`float` and `list`) and an empty atom vector, `receiveObjectMessage` reads
`atoms[0]`, and 0 is not below the size 0. The cases `orientation` and
`number` test the size first and make no access on an empty vector. -/
theorem set_message_reads_missing_atom :
    receiveObjectMessageAccesses ("set") [] = [0] ∧
    receiveObjectMessageAccesses ("float") [] = [0] ∧
    receiveObjectMessageAccesses ("list") [] = [0] ∧
    (¬ ∀ i ∈ receiveObjectMessageAccesses ("set") [], i < ([] : List pd.t_atom).length) ∧
    receiveObjectMessageAccesses ("orientation") [] = [] ∧
    receiveObjectMessageAccesses ("number") [] = [] := by
  decide

theorem clampInt_in_range (v lo hi : Int) (h : lo ≤ hi) :
    lo ≤ clampInt v lo hi ∧ clampInt v lo hi ≤ hi := by
  unfold clampInt
  split
  · omega
  · split <;> omega

theorem toggleObjectIndex_in_range (pos div numItems selected idx : Int)
    (hitems : 1 ≤ numItems) (h : toggleObjectIndex pos div numItems selected = some idx) :
    0 ≤ idx ∧ idx ≤ numItems - 1 := by
  unfold toggleObjectIndex at h
  split at h
  · simp only [Option.some.injEq] at h
    rw [← h]
    exact clampInt_in_range _ 0 (numItems - 1) (by omega)
  · simp at h

/-- C28, the code at the failing input. With two items and a component of
length 4, a left click at coordinate 8 makes `mouseDown` pass index 4 to
`sendFloatValue`, and a click at coordinate -4 makes it pass -2; the valid
indices are 0 and 1. `toggleObject` clamps: for coordinate 8 it passes 1. -/
theorem mouseDown_index_out_of_range :
    mouseDownIndex true 8 4 2 = some 4 ∧
    mouseDownIndex true (-4) 4 2 = some (-2) ∧
    (¬ ∀ idx, mouseDownIndex true 8 4 2 = some idx → 0 ≤ idx ∧ idx ≤ 2 - 1) ∧
    toggleObjectIndex 8 4 2 0 = some 1 := by
  refine ⟨by decide, by decide, ?_, by decide⟩
  intro h
  have := h 4 (by decide)
  omega

/-! ## SplitView -/

theorem getTabComponentSplitIndexFrom_not_mem (tabComponent : Nat) (splits : List Nat)
    (h : tabComponent ∉ splits) :
    ∀ i, getTabComponentSplitIndexFrom tabComponent i splits = none := by
  induction splits with
  | nil => intro i; rfl
  | cons x xs ih =>
    intro i
    simp only [List.mem_cons, not_or] at h
    have hx : ¬ x = tabComponent := fun e => h.1 e.symm
    simp only [getTabComponentSplitIndexFrom, hx, if_false]
    exact ih h.2 _

theorem getTabComponentSplitIndexFrom_mem (tabComponent : Nat) (splits : List Nat)
    (h : tabComponent ∈ splits) :
    ∀ i : Int, getTabComponentSplitIndexFrom tabComponent i splits =
      some (i + (splits.indexOf tabComponent : Nat)) := by
  induction splits with
  | nil => simp at h
  | cons x xs ih =>
    intro i
    by_cases hx : x = tabComponent
    · subst hx
      simp [getTabComponentSplitIndexFrom]
    · have hmem : tabComponent ∈ xs := by
        rcases List.mem_cons.mp h with h1 | h1
        · exact absurd h1.symm hx
        · exact h1
      simp only [getTabComponentSplitIndexFrom, hx, if_false]
      rw [ih hmem, List.indexOf_cons_ne _ hx]
      congr 1
      push_cast
      omega

/-- C29, the code at the failing input. For a pointer that is not in `splits`
(here 30, or null, with splits 10 and 20) the loop of
`getTabComponentSplitIndex` ends without a match and the function ends without
a `return`: it returns no defined value. For a pointer that is in `splits` it
returns the first index at which it occurs. -/
theorem split_index_undefined_for_absent_tab :
    getTabComponentSplitIndex [10, 20] 30 = none ∧
    getTabComponentSplitIndex [10, 20] 0 = none ∧
    getTabComponentSplitIndex [] 10 = none ∧
    getTabComponentSplitIndex [10, 20] 20 = some 1 ∧
    getTabComponentSplitIndex [10, 20, 10] 10 = some 0 := by
  decide

end plugdata

namespace plugdata

/-! ## AudioFifo -/

theorem foldl_sample (step : AudioBuffer → Nat → AudioBuffer)
    (G : Nat → Nat → Sample → Sample)
    (hstep : ∀ buf ch c i, (step buf ch).sample c i =
      if c = ch then G c i (buf.sample c i) else buf.sample c i)
    (chs : List Nat) (hnd : chs.Nodup) :
    ∀ buf c i, (chs.foldl step buf).sample c i =
      if c ∈ chs then G c i (buf.sample c i) else buf.sample c i := by
  induction chs with
  | nil => intro buf c i; simp
  | cons x xs ih =>
    intro buf c i
    rw [List.nodup_cons] at hnd
    rw [List.foldl_cons, ih hnd.2, hstep]
    by_cases hc : c = x
    · subst hc; simp [hnd.1]
    · simp [hc]

theorem foldl_dims (step : AudioBuffer → Nat → AudioBuffer)
    (hdim : ∀ buf ch, (step buf ch).numChannels = buf.numChannels ∧
      (step buf ch).numSamples = buf.numSamples)
    (chs : List Nat) :
    ∀ buf, (chs.foldl step buf).numChannels = buf.numChannels ∧
      (chs.foldl step buf).numSamples = buf.numSamples := by
  induction chs with
  | nil => intro buf; exact ⟨rfl, rfl⟩
  | cons x xs ih =>
    intro buf
    rw [List.foldl_cons]
    exact ⟨(ih _).1.trans (hdim buf x).1, (ih _).2.trans (hdim buf x).2⟩

theorem writeAudio_sample (a : AudioFifo) (src : AudioBuffer) (c i : Nat) :
    (a.writeAudio src).audioBuffer.sample c i =
      if c < min a.audioBuffer.numChannels src.numChannels then
        if (a.fifo.prepareToWrite src.numSamples).size2 > 0 ∧
            (a.fifo.prepareToWrite src.numSamples).start2.toNat ≤ i ∧
            i < (a.fifo.prepareToWrite src.numSamples).start2.toNat +
              (a.fifo.prepareToWrite src.numSamples).size2.toNat then
          src.sample c ((a.fifo.prepareToWrite src.numSamples).size1.toNat +
            (i - (a.fifo.prepareToWrite src.numSamples).start2.toNat))
        else if (a.fifo.prepareToWrite src.numSamples).size1 > 0 ∧
            (a.fifo.prepareToWrite src.numSamples).start1.toNat ≤ i ∧
            i < (a.fifo.prepareToWrite src.numSamples).start1.toNat +
              (a.fifo.prepareToWrite src.numSamples).size1.toNat then
          src.sample c (0 + (i - (a.fifo.prepareToWrite src.numSamples).start1.toNat))
        else a.audioBuffer.sample c i
      else a.audioBuffer.sample c i := by
  unfold AudioFifo.writeAudio
  simp only []
  rw [foldl_sample _ (fun c i v =>
    if (a.fifo.prepareToWrite src.numSamples).size2 > 0 ∧
        (a.fifo.prepareToWrite src.numSamples).start2.toNat ≤ i ∧
        i < (a.fifo.prepareToWrite src.numSamples).start2.toNat +
          (a.fifo.prepareToWrite src.numSamples).size2.toNat then
      src.sample c ((a.fifo.prepareToWrite src.numSamples).size1.toNat +
        (i - (a.fifo.prepareToWrite src.numSamples).start2.toNat))
    else if (a.fifo.prepareToWrite src.numSamples).size1 > 0 ∧
        (a.fifo.prepareToWrite src.numSamples).start1.toNat ≤ i ∧
        i < (a.fifo.prepareToWrite src.numSamples).start1.toNat +
          (a.fifo.prepareToWrite src.numSamples).size1.toNat then
      src.sample c (0 + (i - (a.fifo.prepareToWrite src.numSamples).start1.toNat))
    else v) _ _ (List.nodup_range _)]
  · simp only [List.mem_range]
  · intro buf ch c i
    by_cases h1 : (a.fifo.prepareToWrite src.numSamples).size1 > 0 <;>
      by_cases h2 : (a.fifo.prepareToWrite src.numSamples).size2 > 0 <;>
      by_cases hc : c = ch <;>
      simp [AudioBuffer.copyFrom, h1, h2, hc]

theorem readAudio_sample (a : AudioFifo) (dst : AudioBuffer) (c i : Nat) :
    (a.readAudio dst).2.sample c i =
      if c < min a.audioBuffer.numChannels dst.numChannels then
        if (a.fifo.prepareToRead dst.numSamples).size2 > 0 ∧
            (a.fifo.prepareToRead dst.numSamples).size1.toNat ≤ i ∧
            i < (a.fifo.prepareToRead dst.numSamples).size1.toNat +
              (a.fifo.prepareToRead dst.numSamples).size2.toNat then
          a.audioBuffer.sample c ((a.fifo.prepareToRead dst.numSamples).start2.toNat +
            (i - (a.fifo.prepareToRead dst.numSamples).size1.toNat))
        else if (a.fifo.prepareToRead dst.numSamples).size1 > 0 ∧ 0 ≤ i ∧
            i < 0 + (a.fifo.prepareToRead dst.numSamples).size1.toNat then
          a.audioBuffer.sample c ((a.fifo.prepareToRead dst.numSamples).start1.toNat + (i - 0))
        else dst.sample c i
      else dst.sample c i := by
  unfold AudioFifo.readAudio
  simp only []
  rw [foldl_sample _ (fun c i v =>
    if (a.fifo.prepareToRead dst.numSamples).size2 > 0 ∧
        (a.fifo.prepareToRead dst.numSamples).size1.toNat ≤ i ∧
        i < (a.fifo.prepareToRead dst.numSamples).size1.toNat +
          (a.fifo.prepareToRead dst.numSamples).size2.toNat then
      a.audioBuffer.sample c ((a.fifo.prepareToRead dst.numSamples).start2.toNat +
        (i - (a.fifo.prepareToRead dst.numSamples).size1.toNat))
    else if (a.fifo.prepareToRead dst.numSamples).size1 > 0 ∧ 0 ≤ i ∧
        i < 0 + (a.fifo.prepareToRead dst.numSamples).size1.toNat then
      a.audioBuffer.sample c ((a.fifo.prepareToRead dst.numSamples).start1.toNat + (i - 0))
    else v) _ _ (List.nodup_range _)]
  · simp only [List.mem_range]
  · intro buf ch c i
    by_cases h1 : (a.fifo.prepareToRead dst.numSamples).size1 > 0 <;>
      by_cases h2 : (a.fifo.prepareToRead dst.numSamples).size2 > 0 <;>
      by_cases hc : c = ch <;>
      simp [AudioBuffer.copyFrom, h1, h2, hc]

theorem writeAudio_dims (a : AudioFifo) (src : AudioBuffer) :
    (a.writeAudio src).audioBuffer.numChannels = a.audioBuffer.numChannels ∧
    (a.writeAudio src).audioBuffer.numSamples = a.audioBuffer.numSamples := by
  unfold AudioFifo.writeAudio
  simp only []
  apply foldl_dims
  intro buf ch
  by_cases h1 : (a.fifo.prepareToWrite src.numSamples).size1 > 0 <;>
    by_cases h2 : (a.fifo.prepareToWrite src.numSamples).size2 > 0 <;>
    simp [AudioBuffer.copyFrom, h1, h2]

theorem prepareToWrite_eq (f : AbstractFifo) (n : Int)
    (hvs : f.validStart < f.bufferSize)
    (hve0 : 0 ≤ f.validEnd) (hve : f.validEnd < f.bufferSize)
    (hn0 : 0 ≤ n) (hn : n ≤ f.getFreeSpace) :
    f.prepareToWrite n =
      if n = 0 then ⟨0, 0, 0, 0⟩
      else if n ≤ f.bufferSize - f.validEnd then ⟨f.validEnd, n, 0, 0⟩
      else ⟨f.validEnd, f.bufferSize - f.validEnd, 0, n - (f.bufferSize - f.validEnd)⟩ := by
  unfold AbstractFifo.getFreeSpace AbstractFifo.getNumReady at hn
  unfold AbstractFifo.prepareToWrite
  simp only [min_def]
  split_ifs at hn ⊢ <;> simp only [FifoBlocks.mk.injEq] <;> refine ⟨?_, ?_, ?_, ?_⟩ <;>
    first | trivial | omega

theorem prepareToRead_eq (f : AbstractFifo) (m : Int)
    (hvs0 : 0 ≤ f.validStart) (hvs : f.validStart < f.bufferSize)
    (hve : f.validEnd < f.bufferSize)
    (hm0 : 0 ≤ m) (hm : m ≤ f.getNumReady) :
    f.prepareToRead m =
      if m = 0 then ⟨0, 0, 0, 0⟩
      else if m ≤ f.bufferSize - f.validStart then ⟨f.validStart, m, 0, 0⟩
      else ⟨f.validStart, f.bufferSize - f.validStart, 0,
        m - (f.bufferSize - f.validStart)⟩ := by
  unfold AbstractFifo.getNumReady at hm
  unfold AbstractFifo.prepareToRead
  simp only [min_def]
  split_ifs at hm ⊢ <;> simp only [FifoBlocks.mk.injEq] <;> refine ⟨?_, ?_, ?_, ?_⟩ <;>
    first | trivial | omega

theorem writeAudio_fifo (a : AudioFifo) (src : AudioBuffer)
    (_hvs0 : 0 ≤ a.fifo.validStart) (hvs : a.fifo.validStart < a.fifo.bufferSize)
    (hve0 : 0 ≤ a.fifo.validEnd) (hve : a.fifo.validEnd < a.fifo.bufferSize)
    (hn : (src.numSamples : Int) ≤ a.getNumSamplesFree) :
    (a.writeAudio src).fifo.bufferSize = a.fifo.bufferSize ∧
    (a.writeAudio src).fifo.validStart = a.fifo.validStart ∧
    (a.writeAudio src).fifo.validEnd =
      (if a.fifo.validEnd + src.numSamples ≥ a.fifo.bufferSize then
        a.fifo.validEnd + src.numSamples - a.fifo.bufferSize
      else a.fifo.validEnd + src.numSamples) ∧
    (a.writeAudio src).getNumSamplesAvailable = a.getNumSamplesAvailable + src.numSamples := by
  have hb := prepareToWrite_eq a.fifo src.numSamples hvs hve0 hve (by omega) hn
  unfold AudioFifo.getNumSamplesFree AbstractFifo.getFreeSpace AbstractFifo.getNumReady at hn
  unfold AudioFifo.getNumSamplesAvailable AbstractFifo.getNumReady
  simp only [AudioFifo.writeAudio, AbstractFifo.finishedWrite, hb]
  split_ifs at hn ⊢ <;> (try dsimp only at *) <;> refine ⟨?_, ?_, ?_, ?_⟩ <;>
    first | trivial | omega

theorem readAudio_fifo (a : AudioFifo) (dst : AudioBuffer)
    (hvs0 : 0 ≤ a.fifo.validStart) (hvs : a.fifo.validStart < a.fifo.bufferSize)
    (_hve0 : 0 ≤ a.fifo.validEnd) (hve : a.fifo.validEnd < a.fifo.bufferSize)
    (hm : (dst.numSamples : Int) ≤ a.getNumSamplesAvailable) :
    (a.readAudio dst).1.fifo.bufferSize = a.fifo.bufferSize ∧
    (a.readAudio dst).1.fifo.validEnd = a.fifo.validEnd ∧
    (a.readAudio dst).1.fifo.validStart =
      (if a.fifo.validStart + dst.numSamples ≥ a.fifo.bufferSize then
        a.fifo.validStart + dst.numSamples - a.fifo.bufferSize
      else a.fifo.validStart + dst.numSamples) ∧
    (a.readAudio dst).1.getNumSamplesAvailable = a.getNumSamplesAvailable - dst.numSamples ∧
    (a.readAudio dst).1.audioBuffer = a.audioBuffer := by
  have hb := prepareToRead_eq a.fifo dst.numSamples hvs0 hvs hve (by omega) hm
  unfold AudioFifo.getNumSamplesAvailable AbstractFifo.getNumReady at hm ⊢
  simp only [AudioFifo.readAudio, AbstractFifo.finishedRead, hb]
  split_ifs at hm ⊢ <;> (try dsimp only at *) <;> refine ⟨?_, ?_, ?_, ?_, ?_⟩ <;>
    first | trivial | rfl | omega

theorem writeAudio_written (a : AudioFifo) (src : AudioBuffer) (c j : Nat)
    (_hvs0 : 0 ≤ a.fifo.validStart) (hvs : a.fifo.validStart < a.fifo.bufferSize)
    (hve0 : 0 ≤ a.fifo.validEnd) (hve : a.fifo.validEnd < a.fifo.bufferSize)
    (hn : (src.numSamples : Int) ≤ a.getNumSamplesFree)
    (hc : c < min a.audioBuffer.numChannels src.numChannels) (hj : j < src.numSamples) :
    (a.writeAudio src).audioBuffer.sample c
        (if a.fifo.validEnd + j ≥ a.fifo.bufferSize then a.fifo.validEnd + j - a.fifo.bufferSize
          else a.fifo.validEnd + j).toNat =
      src.sample c j := by
  rw [writeAudio_sample, if_pos hc,
    prepareToWrite_eq a.fifo src.numSamples hvs hve0 hve (by omega) hn]
  unfold AudioFifo.getNumSamplesFree AbstractFifo.getFreeSpace AbstractFifo.getNumReady at hn
  have h0 : ¬ (src.numSamples : Int) = 0 := by omega
  simp only [h0, if_false]
  by_cases h1 : (src.numSamples : Int) ≤ a.fifo.bufferSize - a.fifo.validEnd
  · simp only [h1, if_true]
    split_ifs at hn ⊢ <;> first | (exfalso; omega) | (congr 1; omega)
  · simp only [h1, if_false]
    split_ifs at hn ⊢ <;> first | (exfalso; omega) | (congr 1; omega)

theorem readAudio_read (a : AudioFifo) (dst : AudioBuffer) (c j : Nat)
    (hvs0 : 0 ≤ a.fifo.validStart) (hvs : a.fifo.validStart < a.fifo.bufferSize)
    (hve0 : 0 ≤ a.fifo.validEnd) (hve : a.fifo.validEnd < a.fifo.bufferSize)
    (hm : (dst.numSamples : Int) ≤ a.getNumSamplesAvailable)
    (hc : c < min a.audioBuffer.numChannels dst.numChannels) (hj : j < dst.numSamples) :
    (a.readAudio dst).2.sample c j =
      a.audioBuffer.sample c
        (if a.fifo.validStart + j ≥ a.fifo.bufferSize then
          a.fifo.validStart + j - a.fifo.bufferSize
          else a.fifo.validStart + j).toNat := by
  rw [readAudio_sample, if_pos hc,
    prepareToRead_eq a.fifo dst.numSamples hvs0 hvs hve (by omega) hm]
  unfold AudioFifo.getNumSamplesAvailable AbstractFifo.getNumReady at hm
  have h0 : ¬ (dst.numSamples : Int) = 0 := by omega
  simp only [h0, if_false]
  by_cases h1 : (dst.numSamples : Int) ≤ a.fifo.bufferSize - a.fifo.validStart
  · simp only [h1, if_true]
    split_ifs at hm ⊢ <;> first | (exfalso; omega) | (congr 1; omega)
  · simp only [h1, if_false]
    split_ifs at hm ⊢ <;> first | (exfalso; omega) | (congr 1; omega)

theorem available_add_free (a : AudioFifo) (maxSize : Nat)
    (h : a.fifo.bufferSize = (maxSize : Int) + 1) :
    a.getNumSamplesAvailable + a.getNumSamplesFree = maxSize := by
  unfold AudioFifo.getNumSamplesFree AudioFifo.getNumSamplesAvailable AbstractFifo.getFreeSpace
  omega

theorem setSize_valid (channels maxSize : Nat) :
    (AudioFifo.setSize channels maxSize).Valid channels maxSize := by
  unfold AudioFifo.Valid AudioFifo.setSize AbstractFifo.setTotalSize
  refine ⟨rfl, ?_, ?_, ?_, ?_, rfl, rfl⟩ <;> dsimp only <;> omega

theorem writeAudio_valid (a : AudioFifo) (channels maxSize : Nat) (src : AudioBuffer)
    (hvalid : a.Valid channels maxSize)
    (hn : (src.numSamples : Int) ≤ a.getNumSamplesFree) :
    (a.writeAudio src).Valid channels maxSize := by
  obtain ⟨hB, hvs0, hvs, hve0, hve, hch, hns⟩ := hvalid
  obtain ⟨f1, f2, f3, _⟩ := writeAudio_fifo a src hvs0 hvs hve0 hve hn
  obtain ⟨d1, d2⟩ := writeAudio_dims a src
  unfold AudioFifo.getNumSamplesFree AbstractFifo.getFreeSpace AbstractFifo.getNumReady at hn
  refine ⟨f1.trans hB, ?_, ?_, ?_, ?_, d1.trans hch, d2.trans hns⟩
  · rw [f2]; exact hvs0
  · rw [f2, f1]; exact hvs
  · rw [f3]; split_ifs at hn ⊢ <;> omega
  · rw [f3, f1]; split_ifs at hn ⊢ <;> omega

theorem readAudio_valid (a : AudioFifo) (channels maxSize : Nat) (dst : AudioBuffer)
    (hvalid : a.Valid channels maxSize)
    (hm : (dst.numSamples : Int) ≤ a.getNumSamplesAvailable) :
    (a.readAudio dst).1.Valid channels maxSize := by
  obtain ⟨hB, hvs0, hvs, hve0, hve, hch, hns⟩ := hvalid
  obtain ⟨f1, f2, f3, _, f5⟩ := readAudio_fifo a dst hvs0 hvs hve0 hve hm
  unfold AudioFifo.getNumSamplesAvailable AbstractFifo.getNumReady at hm
  refine ⟨f1.trans hB, ?_, ?_, ?_, ?_, ?_, ?_⟩
  · rw [f3]; split_ifs at hm ⊢ <;> omega
  · rw [f3, f1]; split_ifs at hm ⊢ <;> omega
  · rw [f2]; exact hve0
  · rw [f2, f1]; exact hve
  · rw [f5]; exact hch
  · rw [f5]; exact hns

/-- C25. AudioFifo round trip: take an `AudioFifo` as built by
`setSize(channels, maxSize)`, at any read and write position inside the
buffer. A block of n samples, n at most `getNumSamplesFree()`, is written with
`writeAudio`; the samples that were available before are read with
`readAudio`; then n samples are read with `readAudio`. The second read returns
the written samples, in the same order, on every channel, also when the block
wraps past the end of the storage. `getNumSamplesAvailable() +
getNumSamplesFree()` equals `maxSize` before and after each of the three
operations, each of which leaves the fifo in such a state again; the state
right after `setSize` is one of them. -/
theorem audioFifo_round_trip (a : AudioFifo) (channels maxSize : Nat)
    (src earlier dst : AudioBuffer)
    (hvalid : a.Valid channels maxSize)
    (hsrc : src.numChannels = channels) (hdst : dst.numChannels = channels)
    (hn : (src.numSamples : Int) ≤ a.getNumSamplesFree)
    (hk : (earlier.numSamples : Int) = a.getNumSamplesAvailable)
    (hd : dst.numSamples = src.numSamples) :
    (∀ ch < channels, ∀ i < src.numSamples,
      (((a.writeAudio src).readAudio earlier).1.readAudio dst).2.sample ch i =
        src.sample ch i) ∧
    a.getNumSamplesAvailable + a.getNumSamplesFree = maxSize ∧
    (a.writeAudio src).getNumSamplesAvailable + (a.writeAudio src).getNumSamplesFree =
      maxSize ∧
    ((a.writeAudio src).readAudio earlier).1.getNumSamplesAvailable +
      ((a.writeAudio src).readAudio earlier).1.getNumSamplesFree = maxSize ∧
    (((a.writeAudio src).readAudio earlier).1.readAudio dst).1.getNumSamplesAvailable +
      (((a.writeAudio src).readAudio earlier).1.readAudio dst).1.getNumSamplesFree = maxSize ∧
    (a.writeAudio src).Valid channels maxSize ∧
    ((a.writeAudio src).readAudio earlier).1.Valid channels maxSize ∧
    (((a.writeAudio src).readAudio earlier).1.readAudio dst).1.Valid channels maxSize ∧
    (AudioFifo.setSize channels maxSize).Valid channels maxSize := by
  have hv1 := writeAudio_valid a channels maxSize src hvalid hn
  obtain ⟨hB, hvs0, hvs, hve0, hve, hch, hns⟩ := hvalid
  obtain ⟨w1, w2, w3, w4⟩ := writeAudio_fifo a src hvs0 hvs hve0 hve hn
  have hm1 : (earlier.numSamples : Int) ≤ (a.writeAudio src).getNumSamplesAvailable := by
    rw [w4, hk]; omega
  have hv2 := readAudio_valid _ channels maxSize earlier hv1 hm1
  obtain ⟨hB1, hvs01, hvs1, hve01, hve1, hch1, hns1⟩ := hv1
  obtain ⟨r1, r2, r3, r4, r5⟩ :=
    readAudio_fifo (a.writeAudio src) earlier hvs01 hvs1 hve01 hve1 hm1
  have hm2 : (dst.numSamples : Int) ≤
      ((a.writeAudio src).readAudio earlier).1.getNumSamplesAvailable := by
    rw [r4, w4, hk, hd]; omega
  have hv3 := readAudio_valid _ channels maxSize dst hv2 hm2
  have hstart : ((a.writeAudio src).readAudio earlier).1.fifo.validStart = a.fifo.validEnd := by
    rw [r3, w2, w1, hk]
    unfold AudioFifo.getNumSamplesAvailable AbstractFifo.getNumReady
    split_ifs <;> omega
  refine ⟨?_, available_add_free a maxSize hB, available_add_free _ maxSize hB1,
    available_add_free _ maxSize hv2.1, available_add_free _ maxSize hv3.1,
    ⟨hB1, hvs01, hvs1, hve01, hve1, hch1, hns1⟩, hv2, hv3, setSize_valid channels maxSize⟩
  intro ch hchlt i hi
  obtain ⟨hB2, hvs02, hvs2, hve02, hve2, hch2, hns2⟩ := hv2
  have hc2 : ch < min ((a.writeAudio src).readAudio earlier).1.audioBuffer.numChannels
      dst.numChannels := by
    rw [hch2, hdst]; simpa using hchlt
  rw [readAudio_read _ dst ch i hvs02 hvs2 hve02 hve2 hm2 hc2 (by omega)]
  rw [hstart, r1, w1, r5]
  exact writeAudio_written a src ch i hvs0 hvs hve0 hve hn (by rw [hch, hsrc]; simpa using hchlt) hi

/-- Witness for C25: the two samples are written at the positions 3 and 0 of
the storage, the block wrapping past its end; the sample available before is
read, then the two samples come back in order. -/
theorem audioFifo_round_trip_witness :
    (wrappingFifo.writeAudio twoSamples).fifo.validEnd = 1 ∧
    (wrappingFifo.writeAudio twoSamples).audioBuffer.sample 0 3 = 11 ∧
    (wrappingFifo.writeAudio twoSamples).audioBuffer.sample 0 0 = 22 ∧
    ((wrappingFifo.writeAudio twoSamples).readAudio (silentBlock 1)).2.sample 0 0 = 7 ∧
    (∀ ch < 1, ∀ i < twoSamples.numSamples,
      (((wrappingFifo.writeAudio twoSamples).readAudio (silentBlock 1)).1.readAudio
          (silentBlock 2)).2.sample ch i = twoSamples.sample ch i) ∧
    wrappingFifo.getNumSamplesAvailable + wrappingFifo.getNumSamplesFree = (3 : Nat) :=
  ⟨by decide, by decide, by decide, by decide,
   (audioFifo_round_trip wrappingFifo 1 3 twoSamples (silentBlock 1) (silentBlock 2)
      (by decide) rfl rfl (by decide) (by decide) rfl).1,
   (audioFifo_round_trip wrappingFifo 1 3 twoSamples (silentBlock 1) (silentBlock 2)
      (by decide) rfl rfl (by decide) (by decide) rfl).2.1⟩

end plugdata
